import Mathlib

/-!
Verification of the e-acquire-socials backend ledger, pricing and catalog
classification logic, shallowly embedded from src/backend/server.js.

Conventions of the embedding:
- JS numbers holding currency amounts are modelled as rationals, since the
  handlers call parseFloat on user input; quantities, ids and counters are
  naturals; Equity balances are integers so that non-negativity is a theorem,
  not a typing artifact.
- Math.ceil and Math.floor become Int.ceil and Int.floor on rationals.
- The document store is explicit state: association lists of users, and lists
  of transactions, orders and services. Each HTTP handler becomes a function
  from request data and state to a response tag and a new state; the outcome
  of the one outbound supplier call is a parameter of the handler.
-/

set_option allowUnsafeReducibility true

attribute [local semireducible] Rat.mul Rat.div Rat.inv Rat.add Rat.sub Rat.neg

namespace EAcquire

/-! ## Pricing (server.js, calculateOurPrice)

The source computes, for a supplier rate, the marked-up naira price and the
equity price.  MARKUP_PERCENTAGE and EQUITY_VALUE come from configuration via
parseInt, so they are naturals here and the functions take them as arguments.
-/

/-- Result of calculateOurPrice: the two stored resale rates. -/
structure OurPrice where
  naira : ℤ
  equities : ℤ
deriving DecidableEq

/-- Embeds calculateOurPrice: markupMultiplier = 1 + M/100,
ourPriceNaira = rate * markupMultiplier, ourPriceEquities = ourPriceNaira / E,
each rounded up with Math.ceil at the end. -/
def calculateOurPrice (M E : ℕ) (thekclautRate : ℚ) : OurPrice :=
  let markupMultiplier : ℚ := 1 + (M : ℚ) / 100
  let ourPriceNaira : ℚ := thekclautRate * markupMultiplier
  let ourPriceEquities : ℚ := ourPriceNaira / (E : ℚ)
  { naira := ⌈ourPriceNaira⌉, equities := ⌈ourPriceEquities⌉ }

/-! ## Catalog sync keyword classification (server.js, updateServicesFromThekclaut)

The sync lowercases the supplier service name and classifies the platform by
an ordered chain of substring tests using String.prototype.includes.
-/

/-- Whether the second list of characters starts with the first. -/
def startsWithChars : List Char → List Char → Bool
  | [], _ => true
  | _ :: _, [] => false
  | a :: as, b :: bs => a == b && startsWithChars as bs

/-- Whether pat occurs as a contiguous substring of s, as
String.prototype.includes does. -/
def containsChars (pat : List Char) : List Char → Bool
  | [] => startsWithChars pat []
  | c :: rest => startsWithChars pat (c :: rest) || containsChars pat rest

/-- The lowercased character sequence of a name, as name.toLowerCase()
produces before the includes tests run. -/
def lowerData (s : String) : List Char := s.data.map Char.toLower

/-- JS n.includes(pat) where n is the lowercased name. -/
def nameIncludes (n : List Char) (pat : String) : Bool :=
  containsChars pat.data n

/-- Embeds the platform-detection chain of updateServicesFromThekclaut,
applied to the lowercased service name. -/
def detectPlatform (serviceName : String) : String :=
  let n := lowerData serviceName
  if nameIncludes n "instagram" || nameIncludes n "ig" then "instagram"
  else if nameIncludes n "tiktok" then "tiktok"
  else if nameIncludes n "youtube" || nameIncludes n "yt" then "youtube"
  else if nameIncludes n "twitter" || nameIncludes n "x" then "twitter"
  else if nameIncludes n "facebook" || nameIncludes n "fb" then "facebook"
  else if nameIncludes n "telegram" || nameIncludes n "tg" then "telegram"
  else if nameIncludes n "spotify" then "spotify"
  else "other"

/-! ## Ledger data model (server.js, mongoose schemas)

Only the fields the balance-affecting handlers read or write are embedded.
-/

inductive TxnType
  | deposit | order | refund | referral
deriving DecidableEq

inductive TxnStatus
  | pending | completed | cancelled
deriving DecidableEq

/-- A Transaction document. reference correlates to an order id or a deposit
reference code; both are locally generated numbers here. -/
structure Txn where
  transactionId : ℕ
  userId : ℕ
  ttype : TxnType
  amount : ℚ
  equities : ℤ
  status : TxnStatus
  reference : ℕ
  verifiedBy : Option String
deriving DecidableEq

inductive OrderStatus
  | pending | processing | inProgress | completed | partialDelivery | cancelled | refunded | failed
deriving DecidableEq

/-- An Order document. apiResponse carries the raw supplier error when the
supplier call failed. -/
structure OrderRec where
  orderId : ℕ
  userId : ℕ
  serviceId : String
  targetUrl : String
  quantity : ℕ
  cost : ℤ
  status : OrderStatus
  apiOrderId : Option ℕ
  apiResponse : Option String
deriving DecidableEq

/-- A Service catalog document, restricted to the fields order placement and
cancellation read. -/
structure Service where
  serviceId : String
  ourRate : ℕ
  min : ℕ
  max : ℕ
  cancel : Bool
deriving DecidableEq

/-- A User document, restricted to the ledger fields. -/
structure Account where
  balance : ℤ
  totalSpent : ℤ
  totalOrders : ℕ
  referralCode : String
  referredBy : Option String
  referralCount : ℕ
  referralEarnings : ℤ
deriving DecidableEq

/-- The document store: users keyed by id, plus the three collections the
ledger handlers touch. -/
structure St where
  users : List (ℕ × Account)
  txns : List Txn
  orders : List OrderRec
  services : List Service
deriving DecidableEq

/-- Response outcome tags for the handlers. -/
inductive Res
  | created | ok | badRequest | notFound | insufficientBalance
  | supplierError | authFail | serverError
deriving DecidableEq

/-- User.findById. -/
def lookupUser (users : List (ℕ × Account)) (uid : ℕ) : Option Account :=
  (users.find? (fun e => e.1 == uid)).map (fun e => e.2)

/-- Save an updated user document back by id. -/
def updateUser (uid : ℕ) (f : Account → Account) (users : List (ℕ × Account)) :
    List (ℕ × Account) :=
  users.map (fun e => if e.1 = uid then (e.1, f e.2) else e)

/-- User.findOne on referralCode. -/
def findByReferralCode (users : List (ℕ × Account)) (code : String) :
    Option (ℕ × Account) :=
  users.find? (fun e => e.2.referralCode == code)

/-- Save an updated transaction document back: the first document matching the
findOne filter is replaced. -/
def updateFirstTxn (p : Txn → Bool) (f : Txn → Txn) : List Txn → List Txn
  | [] => []
  | t :: ts => if p t then f t :: ts else t :: updateFirstTxn p f ts

/-- Save an updated order document back: the first document matching the
findOne filter is replaced. -/
def updateFirstOrder (p : OrderRec → Bool) (f : OrderRec → OrderRec) :
    List OrderRec → List OrderRec
  | [] => []
  | o :: os => if p o then f o :: os else o :: updateFirstOrder p f os

/-! ## Handlers -/

/-- The pending deposit transaction persisted by a deposit request:
equities = Math.floor(amount / EQUITY_VALUE). -/
def depositTxn (E : ℕ) (txId uid refCode : ℕ) (amount : ℚ) : Txn :=
  { transactionId := txId, userId := uid, ttype := .deposit,
    amount := amount, equities := ⌊amount / (E : ℚ)⌋,
    status := .pending, reference := refCode, verifiedBy := none }

/-- POST /api/deposit/request: validate the amount range, convert to equities
with Math.floor(amount / EQUITY_VALUE), persist a pending deposit. -/
def depositRequest (E : ℕ) (uid txId refCode : ℕ) (amount : ℚ) (st : St) :
    Res × St :=
  match lookupUser st.users uid with
  | none => (.authFail, st)
  | some _ =>
    if amount = 0 then (.badRequest, st)
    else if amount < 500 then (.badRequest, st)
    else if amount > 500000 then (.badRequest, st)
    else
      (.created, { st with txns := st.txns ++ [depositTxn E txId uid refCode amount] })

/-- The findOne filter of POST /api/admin/deposit/approve:
transactionId, type deposit, status pending. -/
def isPendingDeposit (txId : ℕ) (t : Txn) : Bool :=
  t.transactionId == txId && t.ttype == TxnType.deposit &&
    t.status == TxnStatus.pending

inductive DepositAction
  | approve | reject
deriving DecidableEq

/-- Math.floor(equities * 0.10), the referrer bonus. -/
def referralBonus (equities : ℤ) : ℤ := ⌊(equities : ℚ) * (10 / 100)⌋

/-- The depositor credit written by deposit approval. -/
def creditDeposit (equities : ℤ) (a : Account) : Account :=
  { a with balance := a.balance + equities }

/-- The status flip written by deposit approval or rejection. -/
def finishTxn (status : TxnStatus) (admin : String) (t : Txn) : Txn :=
  { t with status := status, verifiedBy := some admin }

/-- The referrer credit written by the referral cascade. -/
def creditReferrer (bonus : ℤ) (a : Account) : Account :=
  { a with
      balance := a.balance + bonus
      referralEarnings := a.referralEarnings + bonus
      referralCount := a.referralCount + 1 }

/-- The referral-bonus transaction written by the referral cascade. -/
def referralTxn (E : ℕ) (newTxId rid txId : ℕ) (bonus : ℤ) : Txn :=
  { transactionId := newTxId, userId := rid, ttype := .referral,
    amount := (bonus : ℚ) * (E : ℚ), equities := bonus,
    status := .completed, reference := txId, verifiedBy := none }

/-- POST /api/admin/deposit/approve: find the pending deposit; on approve,
complete it, credit the depositor, and if referredBy resolves to a referrer,
credit the bonus and write one referral transaction; on reject, cancel it. -/
def adminDepositDecision (E : ℕ) (admin : String) (action : DepositAction)
    (txId newTxId : ℕ) (st : St) : Res × St :=
  match st.txns.find? (isPendingDeposit txId) with
  | none => (.notFound, st)
  | some t =>
    match action with
    | .approve =>
      match lookupUser st.users t.userId with
      | none => (.serverError, st)
      | some u =>
        let txns1 := updateFirstTxn (isPendingDeposit txId)
          (finishTxn .completed admin) st.txns
        let users1 := updateUser t.userId (creditDeposit t.equities) st.users
        match u.referredBy with
        | none => (.ok, { st with users := users1, txns := txns1 })
        | some code =>
          match findByReferralCode users1 code with
          | none => (.ok, { st with users := users1, txns := txns1 })
          | some (rid, _) =>
            let bonus := referralBonus t.equities
            let users2 := updateUser rid (creditReferrer bonus) users1
            let rt : Txn := referralTxn E newTxId rid txId bonus
            (.ok, { st with users := users2, txns := txns1 ++ [rt] })
    | .reject =>
      let txns1 := updateFirstTxn (isPendingDeposit txId)
        (finishTxn .cancelled admin) st.txns
      (.ok, { st with txns := txns1 })

/-- Math.ceil((service.ourRate / 1000) * quantityNum). -/
def orderCost (ourRate : ℕ) (qty : ℕ) : ℤ :=
  ⌈((ourRate : ℚ) / 1000) * (qty : ℚ)⌉

/-- Outcome of the one outbound supplier call of a handler. -/
inductive SupplierCall
  | ok (apiOrderId : ℕ)
  | fail (err : String)
deriving DecidableEq

/-- The failed order persisted when the supplier call fails. -/
def failedOrder (orderId uid : ℕ) (serviceId targetUrl : String)
    (quantity : ℕ) (cost : ℤ) (err : String) : OrderRec :=
  { orderId := orderId, userId := uid, serviceId := serviceId,
    targetUrl := targetUrl, quantity := quantity, cost := cost,
    status := .failed, apiOrderId := none, apiResponse := some err }

/-- The processing order persisted when the supplier call succeeds. -/
def processingOrder (orderId uid : ℕ) (serviceId targetUrl : String)
    (quantity : ℕ) (cost : ℤ) (apiId : ℕ) : OrderRec :=
  { orderId := orderId, userId := uid, serviceId := serviceId,
    targetUrl := targetUrl, quantity := quantity, cost := cost,
    status := .processing, apiOrderId := some apiId, apiResponse := none }

/-- The balance debit and counter bump written on order success. -/
def debitOrder (cost : ℤ) (a : Account) : Account :=
  { a with
      balance := a.balance - cost
      totalSpent := a.totalSpent + cost
      totalOrders := a.totalOrders + 1 }

/-- The completed order transaction written on order success. -/
def orderTxn (E : ℕ) (txId uid : ℕ) (cost : ℤ) (orderId : ℕ) : Txn :=
  { transactionId := txId, userId := uid, ttype := .order,
    amount := (cost : ℚ) * (E : ℚ), equities := cost,
    status := .completed, reference := orderId, verifiedBy := none }

/-- POST /api/orders/place: required-field check, service lookup, quantity
bounds, cost, balance check, supplier call; on supplier failure persist the
order as failed; on success persist it as processing, debit the balance,
bump the counters and write one completed order transaction. -/
def placeOrder (E : ℕ) (uid orderId txId : ℕ) (serviceId targetUrl : String)
    (quantity : ℕ) (supplier : SupplierCall) (st : St) : Res × St :=
  match lookupUser st.users uid with
  | none => (.authFail, st)
  | some u =>
    if serviceId = "" || targetUrl = "" || quantity = 0 then (.badRequest, st)
    else
      match st.services.find? (fun s => s.serviceId == serviceId) with
      | none => (.notFound, st)
      | some svc =>
        if quantity < svc.min || quantity > svc.max then (.badRequest, st)
        else
          let cost := orderCost svc.ourRate quantity
          if u.balance < cost then (.insufficientBalance, st)
          else
            match supplier with
            | .fail err =>
              let o := failedOrder orderId uid serviceId targetUrl quantity
                cost err
              (.supplierError, { st with orders := st.orders ++ [o] })
            | .ok apiId =>
              let o := processingOrder orderId uid serviceId targetUrl quantity
                cost apiId
              let users1 := updateUser uid (debitOrder cost) st.users
              let t := orderTxn E txId uid cost orderId
              (.created,
               { st with
                   orders := st.orders ++ [o]
                   users := users1
                   txns := st.txns ++ [t] })

/-- The findOne filter of POST /api/orders/:orderId/cancel:
orderId, owning user, status pending or processing. -/
def isCancellable (orderId uid : ℕ) (o : OrderRec) : Bool :=
  o.orderId == orderId && o.userId == uid &&
    (o.status == OrderStatus.pending || o.status == OrderStatus.processing)

/-- The status flip written on successful cancellation. -/
def cancelOrderRec (o : OrderRec) : OrderRec :=
  { o with status := .cancelled }

/-- The balance refund written on successful cancellation. -/
def creditRefund (cost : ℤ) (a : Account) : Account :=
  { a with balance := a.balance + cost }

/-- The completed refund transaction written on successful cancellation. -/
def refundTxn (E : ℕ) (txId uid : ℕ) (cost : ℤ) (orderId : ℕ) : Txn :=
  { transactionId := txId, userId := uid, ttype := .refund,
    amount := (cost : ℚ) * (E : ℚ), equities := cost,
    status := .completed, reference := orderId, verifiedBy := none }

/-- POST /api/orders/:orderId/cancel: find a pending or processing order of
the caller, require the service cancel capability, call the supplier when an
apiOrderId exists and abort on its failure; otherwise mark the order
cancelled, refund the full cost and write one completed refund transaction. -/
def cancelOrder (E : ℕ) (uid orderId txId : ℕ) (supplierCancelOk : Bool)
    (st : St) : Res × St :=
  match lookupUser st.users uid with
  | none => (.authFail, st)
  | some _ =>
    match st.orders.find? (isCancellable orderId uid) with
    | none => (.notFound, st)
    | some o =>
      match st.services.find? (fun s => s.serviceId == o.serviceId) with
      | none => (.badRequest, st)
      | some svc =>
        if !svc.cancel then (.badRequest, st)
        else if o.apiOrderId.isSome && !supplierCancelOk then
          (.supplierError, st)
        else
          let orders1 := updateFirstOrder (isCancellable orderId uid)
            cancelOrderRec st.orders
          let users1 := updateUser uid (creditRefund o.cost) st.users
          let t := refundTxn E txId uid o.cost orderId
          (.ok, { st with
                    orders := orders1
                    users := users1
                    txns := st.txns ++ [t] })

/-- POST /api/auth/register: create a user with zero balance; referredBy is
set to the referrer referral code when the submitted code resolves. -/
def register (uid : ℕ) (code : String) (refCodeInput : Option String)
    (st : St) : Res × St :=
  match lookupUser st.users uid with
  | some _ => (.badRequest, st)
  | none =>
    let referredBy : Option String :=
      match refCodeInput with
      | none => none
      | some c => (findByReferralCode st.users c).map (fun e => e.2.referralCode)
    let a : Account :=
      { balance := 0, totalSpent := 0, totalOrders := 0, referralCode := code,
        referredBy := referredBy, referralCount := 0, referralEarnings := 0 }
    (.created, { st with users := st.users ++ [(uid, a)] })

/-! ## Sequential executions -/

/-- One API operation; locally generated ids and the supplier outcome are
parameters of the operation. -/
inductive Op
  | register (uid : ℕ) (code : String) (refCode : Option String)
  | depositRequest (uid txId refCode : ℕ) (amount : ℚ)
  | adminDeposit (admin : String) (action : DepositAction) (txId newTxId : ℕ)
  | placeOrder (uid orderId txId : ℕ) (serviceId targetUrl : String)
      (quantity : ℕ) (supplier : SupplierCall)
  | cancelOrder (uid orderId txId : ℕ) (supplierCancelOk : Bool)

/-- State reached after one operation. -/
def step (E : ℕ) (st : St) (op : Op) : St :=
  match op with
  | .register uid code rc => (register uid code rc st).2
  | .depositRequest uid txId rc amount =>
      (depositRequest E uid txId rc amount st).2
  | .adminDeposit admin action txId newTxId =>
      (adminDepositDecision E admin action txId newTxId st).2
  | .placeOrder uid oid txId sid url q sup =>
      (placeOrder E uid oid txId sid url q sup st).2
  | .cancelOrder uid oid txId ok1 => (cancelOrder E uid oid txId ok1 st).2

/-- The empty store over a given catalog. -/
def initSt (services : List Service) : St :=
  { users := [], txns := [], orders := [], services := services }

/-- State after a sequential execution of operations from the empty store. -/
def run (E : ℕ) (services : List Service) (ops : List Op) : St :=
  ops.foldl (step E) (initSt services)

/-! ## The ledger sum -/

/-- Signed Equity delta of a transaction: orders negative, deposits, refunds
and referral bonuses positive. -/
def signedEq (t : Txn) : ℤ :=
  match t.ttype with
  | .order => -t.equities
  | _ => t.equities

/-- Contribution of one transaction to the completed signed sum of a user. -/
def contrib (uid : ℕ) (t : Txn) : ℤ :=
  if t.userId = uid ∧ t.status = TxnStatus.completed then signedEq t else 0

/-- Signed sum of the completed transactions of a user. -/
def signedSum (uid : ℕ) (txns : List Txn) : ℤ :=
  (txns.map (contrib uid)).sum

/-- Whether some user document carries this id. -/
def hasUser (users : List (ℕ × Account)) (uid : ℕ) : Prop :=
  ∃ e ∈ users, e.1 = uid

/-- The ledger invariant: every account balance is the signed sum of the
completed transactions of that account and is non-negative; deposit
transactions never carry negative equities; every transaction belongs to an
existing user; order costs are non-negative. -/
def Inv (st : St) : Prop :=
  (∀ e ∈ st.users, e.2.balance = signedSum e.1 st.txns) ∧
  (∀ e ∈ st.users, 0 ≤ e.2.balance) ∧
  (∀ t ∈ st.txns, t.ttype = TxnType.deposit → 0 ≤ t.equities) ∧
  (∀ t ∈ st.txns, hasUser st.users t.userId) ∧
  (∀ o ∈ st.orders, 0 ≤ o.cost)

/-- The amount/equities consistency a transaction can satisfy at creation
time under equity value E: non-deposit transactions are written with
amount = equities * E; deposit transactions are written with
equities = floor(amount / E) from the raw requested amount. -/
def TxnConsistent (E : ℕ) (t : Txn) : Prop :=
  (t.ttype ≠ TxnType.deposit → t.amount = (t.equities : ℚ) * (E : ℚ)) ∧
  (t.ttype = TxnType.deposit →
    t.equities = ⌊t.amount / (E : ℚ)⌋ ∧ 500 ≤ t.amount ∧ t.amount ≤ 500000)

/-! ## Concrete fixtures used to evaluate the theorems -/

/-- A fresh account with a given referral code, referrer and balance. -/
def acct0 (code : String) (rb : Option String) (bal : ℤ) : Account :=
  { balance := bal, totalSpent := 0, totalOrders := 0, referralCode := code,
    referredBy := rb, referralCount := 0, referralEarnings := 0 }

/-- The referring user's account after the sample execution. -/
def acctW : Account :=
  { balance := 20, totalSpent := 0, totalOrders := 0, referralCode := "REFA",
    referredBy := none, referralCount := 1, referralEarnings := 20 }

/-- A sample catalog service. -/
def svcW : Service :=
  { serviceId := "101", ourRate := 150, min := 10, max := 1000, cancel := true }

/-- A sample execution: two users, the second referred by the first, a
deposit requested and approved, an order placed and then cancelled. -/
def opsW : List Op :=
  [ .register 1 "REFA" none,
    .register 2 "REFB" (some "REFA"),
    .depositRequest 2 100 900 2000,
    .adminDeposit "admin" .approve 100 101,
    .placeOrder 2 500 102 "101" "url" 100 (.ok 777),
    .cancelOrder 2 500 103 true ]

/-- A store holding one already-completed deposit. -/
def stC2 : St :=
  { users := [(1, acct0 "RA" none 100)],
    txns := [{ transactionId := 100, userId := 1, ttype := .deposit,
               amount := 1000, equities := 100, status := .completed,
               reference := 900, verifiedBy := some "admin" }],
    orders := [], services := [] }

/-- A store holding a pending deposit of a referred user. -/
def stC3 : St :=
  { users := [(1, acct0 "RA" none 0), (2, acct0 "RB" (some "RA") 0)],
    txns := [{ transactionId := 100, userId := 2, ttype := .deposit,
               amount := 2000, equities := 200, status := .pending,
               reference := 900, verifiedBy := none }],
    orders := [], services := [] }

/-- The pending deposit document held by stC3. -/
def tC3 : Txn :=
  { transactionId := 100, userId := 2, ttype := .deposit, amount := 2000,
    equities := 200, status := .pending, reference := 900, verifiedBy := none }

/-- A store with one registered user and nothing else. -/
def stC9 : St :=
  { users := [(1, acct0 "RA" none 0)], txns := [], orders := [],
    services := [] }

/-- A store with one funded user and the sample service. -/
def stC5 : St :=
  { users := [(1, acct0 "RA" none 50)],
    txns := [], orders := [], services := [svcW] }

/-- A store with one funded user, the sample service and one processing
order of that user. -/
def stC8 : St :=
  { users := [(1, acct0 "RA" none 50)],
    txns := [],
    orders := [{ orderId := 500, userId := 1, serviceId := "101",
                 targetUrl := "url", quantity := 100, cost := 15,
                 status := .processing, apiOrderId := some 777,
                 apiResponse := none }],
    services := [svcW] }

/-! ## Theorems -/

/-! ### Store lemmas -/

theorem updateFirstTxn_of_find?_none {p : Txn → Bool} {l : List Txn}
    (f : Txn → Txn) (h : l.find? p = none) : updateFirstTxn p f l = l := by
  induction l with
  | nil => rfl
  | cons t ts ih =>
    rw [List.find?_cons] at h
    cases hp : p t with
    | true => simp [hp] at h
    | false =>
      simp only [hp] at h
      simp [updateFirstTxn, hp, ih h]

theorem mem_updateFirstTxn {p : Txn → Bool} {f : Txn → Txn} {l : List Txn}
    {x : Txn} (hx : x ∈ updateFirstTxn p f l) :
    x ∈ l ∨ ∃ y ∈ l, p y = true ∧ x = f y := by
  induction l with
  | nil => simp [updateFirstTxn] at hx
  | cons t ts ih =>
    by_cases hp : p t
    · simp only [updateFirstTxn, if_pos hp] at hx
      rcases List.mem_cons.mp hx with h1 | h1
      · exact Or.inr ⟨t, List.mem_cons_self t ts, hp, h1⟩
      · exact Or.inl (List.mem_cons_of_mem t h1)
    · simp only [updateFirstTxn, if_neg hp] at hx
      rcases List.mem_cons.mp hx with h1 | h1
      · exact Or.inl (h1 ▸ List.mem_cons_self t ts)
      · rcases ih h1 with h2 | ⟨y, hy, hpy, hxy⟩
        · exact Or.inl (List.mem_cons_of_mem t h2)
        · exact Or.inr ⟨y, List.mem_cons_of_mem t hy, hpy, hxy⟩

theorem mem_updateFirstOrder {p : OrderRec → Bool} {f : OrderRec → OrderRec}
    {l : List OrderRec} {x : OrderRec} (hx : x ∈ updateFirstOrder p f l) :
    x ∈ l ∨ ∃ y ∈ l, p y = true ∧ x = f y := by
  induction l with
  | nil => simp [updateFirstOrder] at hx
  | cons t ts ih =>
    by_cases hp : p t
    · simp only [updateFirstOrder, if_pos hp] at hx
      rcases List.mem_cons.mp hx with h1 | h1
      · exact Or.inr ⟨t, List.mem_cons_self t ts, hp, h1⟩
      · exact Or.inl (List.mem_cons_of_mem t h1)
    · simp only [updateFirstOrder, if_neg hp] at hx
      rcases List.mem_cons.mp hx with h1 | h1
      · exact Or.inl (h1 ▸ List.mem_cons_self t ts)
      · rcases ih h1 with h2 | ⟨y, hy, hpy, hxy⟩
        · exact Or.inl (List.mem_cons_of_mem t h2)
        · exact Or.inr ⟨y, List.mem_cons_of_mem t hy, hpy, hxy⟩

theorem signedSum_append (uid : ℕ) (l1 l2 : List Txn) :
    signedSum uid (l1 ++ l2) = signedSum uid l1 + signedSum uid l2 := by
  simp [signedSum]

theorem signedSum_cons (uid : ℕ) (t : Txn) (l : List Txn) :
    signedSum uid (t :: l) = contrib uid t + signedSum uid l := by
  simp [signedSum]

theorem signedSum_updateFirstTxn {p : Txn → Bool} {l : List Txn} {t : Txn}
    (f : Txn → Txn) (h : l.find? p = some t) (uid : ℕ) :
    signedSum uid (updateFirstTxn p f l) =
      signedSum uid l - contrib uid t + contrib uid (f t) := by
  induction l with
  | nil => simp at h
  | cons a ts ih =>
    rw [List.find?_cons] at h
    cases hp : p a with
    | true =>
      simp only [hp, if_pos] at h
      cases h
      simp only [updateFirstTxn, hp, if_pos, signedSum_cons]
      ring
    | false =>
      simp only [hp] at h
      simp only [updateFirstTxn, hp, Bool.false_eq_true, if_false,
        signedSum_cons, ih h]
      ring

theorem signedSum_eq_zero {uid : ℕ} {l : List Txn}
    (h : ∀ t ∈ l, t.userId ≠ uid) : signedSum uid l = 0 := by
  induction l with
  | nil => rfl
  | cons t ts ih =>
    rw [signedSum_cons]
    have h1 : contrib uid t = 0 := by
      have hne : ¬ (t.userId = uid ∧ t.status = TxnStatus.completed) :=
        fun hc => h t (List.mem_cons_self t ts) hc.1
      simp [contrib, hne]
    rw [h1, ih (fun t' ht' => h t' (List.mem_cons_of_mem t ht'))]
    ring

theorem lookupUser_updateUser_self (uid : ℕ) (f : Account → Account)
    (users : List (ℕ × Account)) :
    lookupUser (updateUser uid f users) uid = (lookupUser users uid).map f := by
  induction users with
  | nil => rfl
  | cons e es ih =>
    by_cases h : e.1 = uid
    · simp [lookupUser, updateUser, List.find?_cons, h]
    · have hb : (e.1 == uid) = false := by simp [h]
      simp only [lookupUser, updateUser, List.map_cons, List.find?_cons,
        if_neg h, hb, Bool.false_eq_true, if_false] at ih ⊢
      exact ih

theorem lookupUser_updateUser_ne {v uid : ℕ} (hne : v ≠ uid)
    (f : Account → Account) (users : List (ℕ × Account)) :
    lookupUser (updateUser uid f users) v = lookupUser users v := by
  induction users with
  | nil => rfl
  | cons e es ih =>
    by_cases h : e.1 = uid
    · have hb : (e.1 == v) = false := by
        simp only [beq_eq_false_iff_ne, ne_eq, h]
        exact fun hc => hne hc.symm
      simp only [lookupUser, updateUser, List.map_cons, if_pos h,
        List.find?_cons, hb, Bool.false_eq_true, if_false] at ih ⊢
      exact ih
    · cases hb : (e.1 == v) with
      | true =>
        simp [lookupUser, updateUser, List.find?_cons, if_neg h, hb]
      | false =>
        simp only [lookupUser, updateUser, List.map_cons, if_neg h,
          List.find?_cons, hb, Bool.false_eq_true, if_false] at ih ⊢
        exact ih

theorem hasUser_updateUser (uid v : ℕ) (f : Account → Account)
    (users : List (ℕ × Account)) :
    hasUser (updateUser uid f users) v ↔ hasUser users v := by
  constructor
  · rintro ⟨e, he, hkey⟩
    rcases List.mem_map.mp he with ⟨x, hx, hxe⟩
    refine ⟨x, hx, ?_⟩
    by_cases h : x.1 = uid
    · rw [← hxe] at hkey
      simpa [h] using hkey
    · rw [← hxe] at hkey
      simpa [h] using hkey
  · rintro ⟨e, he, hkey⟩
    by_cases h : e.1 = uid
    · exact ⟨(e.1, f e.2), List.mem_map.mpr ⟨e, he, by simp [h]⟩, hkey⟩
    · exact ⟨e, List.mem_map.mpr ⟨e, he, by simp [h]⟩, hkey⟩

theorem lookupUser_eq_none_iff (users : List (ℕ × Account)) (v : ℕ) :
    lookupUser users v = none ↔ ¬ hasUser users v := by
  unfold lookupUser hasUser
  rw [Option.map_eq_none', List.find?_eq_none]
  constructor
  · intro h
    rintro ⟨e, he, hk⟩
    have := h e he
    simp [hk] at this
  · intro h e he
    simp only [Bool.not_eq_true, beq_eq_false_iff_ne, ne_eq]
    intro hk
    exact h ⟨e, he, hk⟩

theorem lookupUser_some_mem {users : List (ℕ × Account)} {v : ℕ} {a : Account}
    (h : lookupUser users v = some a) : (v, a) ∈ users := by
  simp only [lookupUser, Option.map_eq_some'] at h
  rcases h with ⟨e, he, hea⟩
  have hmem := List.mem_of_find?_eq_some he
  have hkey := List.find?_some he
  simp only [beq_iff_eq] at hkey
  have : e = (v, a) := by
    cases e
    simp only at hea hkey
    rw [hkey, hea]
  rw [← this]
  exact hmem

theorem findByReferralCode_some_mem {users : List (ℕ × Account)}
    {code : String} {e : ℕ × Account}
    (h : findByReferralCode users code = some e) :
    e ∈ users ∧ e.2.referralCode = code := by
  refine ⟨List.mem_of_find?_eq_some h, ?_⟩
  have := List.find?_some h
  simpa using this

theorem findByReferralCode_updateUser (uid : ℕ) (f : Account → Account)
    (hf : ∀ a, (f a).referralCode = a.referralCode)
    (users : List (ℕ × Account)) (code : String) :
    findByReferralCode (updateUser uid f users) code =
      (findByReferralCode users code).map
        (fun e => if e.1 = uid then (e.1, f e.2) else e) := by
  unfold findByReferralCode updateUser
  have hp : ((fun (e : ℕ × Account) => e.2.referralCode == code) ∘
      fun e => if e.1 = uid then (e.1, f e.2) else e) =
      (fun (e : ℕ × Account) => e.2.referralCode == code) := by
    funext e
    by_cases h : e.1 = uid <;> simp [h, hf]
  rw [List.find?_map, hp]

theorem hasUser_of_lookup_some {users : List (ℕ × Account)} {v : ℕ}
    {a : Account} (h : lookupUser users v = some a) : hasUser users v :=
  ⟨(v, a), lookupUser_some_mem h, rfl⟩

theorem isPendingDeposit_spec {txId : ℕ} {t : Txn}
    (h : isPendingDeposit txId t = true) :
    t.transactionId = txId ∧ t.ttype = TxnType.deposit ∧
      t.status = TxnStatus.pending := by
  simpa [isPendingDeposit, and_assoc] using h

theorem isCancellable_spec {orderId uid : ℕ} {o : OrderRec}
    (h : isCancellable orderId uid o = true) :
    o.orderId = orderId ∧ o.userId = uid ∧
      (o.status = OrderStatus.pending ∨ o.status = OrderStatus.processing) := by
  simpa [isCancellable, and_assoc] using h

/-- Balance-sum component of the invariant after crediting one user and
changing the transaction list by the matching signed delta. -/
theorem inv_B_step {users : List (ℕ × Account)} {txns txns' : List Txn}
    {uid : ℕ} {δ : ℤ} {f : Account → Account}
    (hfb : ∀ a, (f a).balance = a.balance + δ)
    (hsum : ∀ v, signedSum v txns' = signedSum v txns + (if v = uid then δ else 0))
    (hB : ∀ e ∈ users, e.2.balance = signedSum e.1 txns) :
    ∀ e ∈ updateUser uid f users, e.2.balance = signedSum e.1 txns' := by
  intro e' he'
  rcases List.mem_map.mp he' with ⟨e, he, hee⟩
  by_cases hk : e.1 = uid
  · rw [← hee]
    simp only [if_pos hk]
    rw [hfb, hB e he, hsum e.1, if_pos hk]
  · rw [← hee]
    simp only [if_neg hk]
    rw [hB e he, hsum e.1, if_neg hk]
    ring

/-- Non-negativity component after crediting a non-negative delta to one
user. -/
theorem inv_C_step {users : List (ℕ × Account)} {uid : ℕ} {δ : ℤ}
    {f : Account → Account}
    (hfb : ∀ a, (f a).balance = a.balance + δ) (hδ : 0 ≤ δ)
    (hC : ∀ e ∈ users, 0 ≤ e.2.balance) :
    ∀ e ∈ updateUser uid f users, 0 ≤ e.2.balance := by
  intro e' he'
  rcases List.mem_map.mp he' with ⟨e, he, hee⟩
  by_cases hk : e.1 = uid
  · rw [← hee]
    simp only [if_pos hk]
    rw [hfb]
    have := hC e he
    omega
  · rw [← hee]
    simp only [if_neg hk]
    exact hC e he

theorem adminDeposit_notFound_eq (E : ℕ) (admin : String)
    (action : DepositAction) (txId newTxId : ℕ) (st : St)
    (hfind : st.txns.find? (isPendingDeposit txId) = none) :
    adminDepositDecision E admin action txId newTxId st = (.notFound, st) := by
  simp [adminDepositDecision, hfind]

theorem adminDeposit_reject_eq (E : ℕ) (admin : String) (txId newTxId : ℕ)
    (st : St) {t : Txn}
    (hfind : st.txns.find? (isPendingDeposit txId) = some t) :
    adminDepositDecision E admin .reject txId newTxId st =
      (.ok, { st with txns := updateFirstTxn (isPendingDeposit txId)
                        (finishTxn .cancelled admin) st.txns }) := by
  simp [adminDepositDecision, hfind, finishTxn]

theorem adminDeposit_approve_noReferrer_eq (E : ℕ) (admin : String)
    (txId newTxId : ℕ) (st : St) {t : Txn} {u : Account}
    (hfind : st.txns.find? (isPendingDeposit txId) = some t)
    (hu : lookupUser st.users t.userId = some u)
    (hrb : u.referredBy = none) :
    adminDepositDecision E admin .approve txId newTxId st =
      (.ok, { st with
                users := updateUser t.userId (creditDeposit t.equities) st.users
                txns := updateFirstTxn (isPendingDeposit txId)
                         (finishTxn .completed admin) st.txns }) := by
  simp [adminDepositDecision, hfind, hu, hrb, finishTxn, creditDeposit]

theorem adminDeposit_approve_unresolved_eq (E : ℕ) (admin : String)
    (txId newTxId : ℕ) (st : St) {t : Txn} {u : Account} {code : String}
    (hfind : st.txns.find? (isPendingDeposit txId) = some t)
    (hu : lookupUser st.users t.userId = some u)
    (hrb : u.referredBy = some code)
    (hfr : findByReferralCode
      (updateUser t.userId (creditDeposit t.equities) st.users) code = none) :
    adminDepositDecision E admin .approve txId newTxId st =
      (.ok, { st with
                users := updateUser t.userId (creditDeposit t.equities) st.users
                txns := updateFirstTxn (isPendingDeposit txId)
                         (finishTxn .completed admin) st.txns }) := by
  simp only [adminDepositDecision, hfind, hu, hrb, creditDeposit] at hfr ⊢
  simp [hfr, finishTxn, creditDeposit]

theorem adminDeposit_approve_referrer_eq (E : ℕ) (admin : String)
    (txId newTxId : ℕ) (st : St) {t : Txn} {u : Account} {code : String}
    {rid : ℕ} {r : Account}
    (hfind : st.txns.find? (isPendingDeposit txId) = some t)
    (hu : lookupUser st.users t.userId = some u)
    (hrb : u.referredBy = some code)
    (hfr : findByReferralCode
      (updateUser t.userId (creditDeposit t.equities) st.users) code =
        some (rid, r)) :
    adminDepositDecision E admin .approve txId newTxId st =
      (.ok, { st with
                users := updateUser rid (creditReferrer (referralBonus t.equities))
                          (updateUser t.userId (creditDeposit t.equities) st.users)
                txns := updateFirstTxn (isPendingDeposit txId)
                          (finishTxn .completed admin) st.txns ++
                            [referralTxn E newTxId rid txId (referralBonus t.equities)] }) := by
  simp only [adminDepositDecision, hfind, hu, hrb, creditDeposit] at hfr ⊢
  simp [hfr, finishTxn, creditDeposit, creditReferrer, referralTxn]

theorem adminDeposit_approve_noUser_eq (E : ℕ) (admin : String)
    (txId newTxId : ℕ) (st : St) {t : Txn}
    (hfind : st.txns.find? (isPendingDeposit txId) = some t)
    (hu : lookupUser st.users t.userId = none) :
    adminDepositDecision E admin .approve txId newTxId st =
      (.serverError, st) := by
  simp [adminDepositDecision, hfind, hu]

theorem referralBonus_nonneg {e : ℤ} (h : 0 ≤ e) : 0 ≤ referralBonus e := by
  unfold referralBonus
  apply Int.floor_nonneg.mpr
  have he : (0 : ℚ) ≤ (e : ℚ) := by exact_mod_cast h
  have : (0 : ℚ) ≤ (10 / 100 : ℚ) := by norm_num
  exact mul_nonneg he this

/-- Flipping the found pending deposit to completed adds its equities to the
signed sum of its owner and changes no other sum. -/
theorem signedSum_flip_completed {txns : List Txn} {txId : ℕ} {t : Txn}
    (admin : String)
    (hfind : txns.find? (isPendingDeposit txId) = some t) (v : ℕ) :
    signedSum v (updateFirstTxn (isPendingDeposit txId)
      (finishTxn .completed admin) txns) =
      signedSum v txns + (if v = t.userId then t.equities else 0) := by
  obtain ⟨htid, htty, htst⟩ := isPendingDeposit_spec (List.find?_some hfind)
  rw [signedSum_updateFirstTxn _ hfind]
  have h1 : contrib v t = 0 := by simp [contrib, htst]
  have h2 : contrib v (finishTxn .completed admin t) =
      if v = t.userId then t.equities else 0 := by
    by_cases hv : t.userId = v
    · simp [contrib, finishTxn, hv, signedEq, htty]
    · have hv' : ¬ v = t.userId := fun hc => hv hc.symm
      simp [contrib, finishTxn, hv, hv']
  rw [h1, h2]
  ring

/-- Appending the referral-bonus transaction adds the bonus to the signed sum
of the referrer and changes no other sum. -/
theorem signedSum_append_referralTxn (E newTxId rid txId : ℕ) (bonus : ℤ)
    (l : List Txn) (v : ℕ) :
    signedSum v (l ++ [referralTxn E newTxId rid txId bonus]) =
      signedSum v l + (if v = rid then bonus else 0) := by
  rw [signedSum_append]
  congr 1
  by_cases hv : rid = v
  · simp [signedSum, contrib, referralTxn, signedEq, hv]
  · have hv' : ¬ v = rid := fun hc => hv hc.symm
    simp [signedSum, contrib, referralTxn, hv, hv']

/-- The transaction status flip preserves type, equities and owner, so the
deposit-equities and ownership components of the invariant survive it. -/
theorem inv_DE_updateFirstTxn {txns : List Txn} {p : Txn → Bool}
    {status : TxnStatus} {admin : String}
    (users : List (ℕ × Account))
    (hD : ∀ t ∈ txns, t.ttype = TxnType.deposit → 0 ≤ t.equities)
    (hE : ∀ t ∈ txns, hasUser users t.userId) :
    (∀ t ∈ updateFirstTxn p (finishTxn status admin) txns,
      t.ttype = TxnType.deposit → 0 ≤ t.equities) ∧
    (∀ t ∈ updateFirstTxn p (finishTxn status admin) txns,
      hasUser users t.userId) := by
  constructor
  · intro t' ht' hty
    rcases mem_updateFirstTxn ht' with hm | ⟨y, hy, hpy, hxy⟩
    · exact hD t' hm hty
    · rw [hxy] at hty ⊢
      exact hD y hy hty
  · intro t' ht'
    rcases mem_updateFirstTxn ht' with hm | ⟨y, hy, hpy, hxy⟩
    · exact hE t' hm
    · rw [hxy]
      exact hE y hy

/-- The admin deposit decision preserves the ledger invariant. -/
theorem inv_adminDeposit (E : ℕ) (admin : String) (action : DepositAction)
    (txId newTxId : ℕ) (st : St) (h : Inv st) :
    Inv (adminDepositDecision E admin action txId newTxId st).2 := by
  obtain ⟨hB, hC, hD, hE, hF⟩ := h
  cases hfind : st.txns.find? (isPendingDeposit txId) with
  | none =>
    rw [adminDeposit_notFound_eq E admin action txId newTxId st hfind]
    exact ⟨hB, hC, hD, hE, hF⟩
  | some t =>
    have hmem_t := List.mem_of_find?_eq_some hfind
    obtain ⟨htid, htty, htst⟩ := isPendingDeposit_spec (List.find?_some hfind)
    have heq0 : 0 ≤ t.equities := hD t hmem_t htty
    cases action with
    | reject =>
      rw [adminDeposit_reject_eq E admin txId newTxId st hfind]
      obtain ⟨hD', hE'⟩ := inv_DE_updateFirstTxn st.users hD hE
      refine ⟨?_, hC, hD', hE', hF⟩
      intro e he
      rw [signedSum_updateFirstTxn _ hfind]
      have h1 : contrib e.1 t = 0 := by simp [contrib, htst]
      have h2 : contrib e.1 (finishTxn .cancelled admin t) = 0 := by
        simp [contrib, finishTxn]
      rw [h1, h2, hB e he]
      ring
    | approve =>
      cases hu : lookupUser st.users t.userId with
      | none =>
        rw [adminDeposit_approve_noUser_eq E admin txId newTxId st hfind hu]
        exact ⟨hB, hC, hD, hE, hF⟩
      | some u =>
        obtain ⟨hD1, hE1⟩ := inv_DE_updateFirstTxn st.users hD hE
        have hB1 : ∀ e ∈ updateUser t.userId (creditDeposit t.equities) st.users,
            e.2.balance = signedSum e.1 (updateFirstTxn (isPendingDeposit txId)
              (finishTxn .completed admin) st.txns) :=
          inv_B_step (fun a => rfl) (signedSum_flip_completed admin hfind) hB
        have hC1 : ∀ e ∈ updateUser t.userId (creditDeposit t.equities) st.users,
            0 ≤ e.2.balance :=
          inv_C_step (fun a => rfl) heq0 hC
        have hE1' : ∀ t' ∈ updateFirstTxn (isPendingDeposit txId)
            (finishTxn .completed admin) st.txns,
            hasUser (updateUser t.userId (creditDeposit t.equities) st.users)
              t'.userId :=
          fun t' ht' => (hasUser_updateUser _ _ _ _).mpr (hE1 t' ht')
        cases hrb : u.referredBy with
        | none =>
          rw [adminDeposit_approve_noReferrer_eq E admin txId newTxId st
            hfind hu hrb]
          exact ⟨hB1, hC1, hD1, hE1', hF⟩
        | some code =>
          cases hfr : findByReferralCode
              (updateUser t.userId (creditDeposit t.equities) st.users) code with
          | none =>
            rw [adminDeposit_approve_unresolved_eq E admin txId newTxId st
              hfind hu hrb hfr]
            exact ⟨hB1, hC1, hD1, hE1', hF⟩
          | some e =>
            cases e with
            | mk rid r =>
              rw [adminDeposit_approve_referrer_eq E admin txId newTxId st
                hfind hu hrb hfr]
              have hbon : 0 ≤ referralBonus t.equities := referralBonus_nonneg heq0
              refine ⟨?_, ?_, ?_, ?_, hF⟩
              · exact inv_B_step (fun a => rfl)
                  (signedSum_append_referralTxn E newTxId rid txId
                    (referralBonus t.equities) _) hB1
              · exact inv_C_step (fun a => rfl) hbon hC1
              · intro t' ht' hty
                rcases List.mem_append.mp ht' with hm | hm
                · exact hD1 t' hm hty
                · simp only [List.mem_singleton] at hm
                  rw [hm] at hty
                  simp [referralTxn] at hty
              · intro t' ht'
                rcases List.mem_append.mp ht' with hm | hm
                · exact (hasUser_updateUser _ _ _ _).mpr (hE1' t' hm)
                · simp only [List.mem_singleton] at hm
                  rw [hm]
                  have hmem : (rid, r) ∈ updateUser t.userId
                      (creditDeposit t.equities) st.users :=
                    (findByReferralCode_some_mem hfr).1
                  have : hasUser (updateUser t.userId
                      (creditDeposit t.equities) st.users)
                      (referralTxn E newTxId rid txId
                        (referralBonus t.equities)).userId :=
                    ⟨(rid, r), hmem, rfl⟩
                  exact (hasUser_updateUser _ _ _ _).mpr this

theorem orderCost_nonneg (r q : ℕ) : 0 ≤ orderCost r q := by
  unfold orderCost
  apply Int.ceil_nonneg
  positivity

theorem placeOrder_badQuantity_eq (E uid orderId txId : ℕ)
    (serviceId targetUrl : String) (quantity : ℕ) (supplier : SupplierCall)
    (st : St) {u : Account} {svc : Service}
    (hu : lookupUser st.users uid = some u)
    (hs : serviceId ≠ "") (hturl : targetUrl ≠ "") (hq0 : quantity ≠ 0)
    (hsvc : st.services.find? (fun s => s.serviceId == serviceId) = some svc)
    (hbad : quantity < svc.min ∨ svc.max < quantity) :
    placeOrder E uid orderId txId serviceId targetUrl quantity supplier st =
      (.badRequest, st) := by
  have hcond : (quantity < svc.min ∨ quantity > svc.max) := hbad
  simp [placeOrder, hu, hs, hturl, hq0, hsvc, hcond]

theorem placeOrder_insufficient_eq (E uid orderId txId : ℕ)
    (serviceId targetUrl : String) (quantity : ℕ) (supplier : SupplierCall)
    (st : St) {u : Account} {svc : Service}
    (hu : lookupUser st.users uid = some u)
    (hs : serviceId ≠ "") (hturl : targetUrl ≠ "") (hq0 : quantity ≠ 0)
    (hsvc : st.services.find? (fun s => s.serviceId == serviceId) = some svc)
    (hmin : svc.min ≤ quantity) (hmax : quantity ≤ svc.max)
    (hbal : u.balance < orderCost svc.ourRate quantity) :
    placeOrder E uid orderId txId serviceId targetUrl quantity supplier st =
      (.insufficientBalance, st) := by
  simp [placeOrder, hu, hs, hturl, hq0, hsvc, not_lt.mpr hmin,
    not_lt.mpr hmax, hbal]

theorem placeOrder_supplierFail_eq (E uid orderId txId : ℕ)
    (serviceId targetUrl : String) (quantity : ℕ) (err : String)
    (st : St) {u : Account} {svc : Service}
    (hu : lookupUser st.users uid = some u)
    (hs : serviceId ≠ "") (hturl : targetUrl ≠ "") (hq0 : quantity ≠ 0)
    (hsvc : st.services.find? (fun s => s.serviceId == serviceId) = some svc)
    (hmin : svc.min ≤ quantity) (hmax : quantity ≤ svc.max)
    (hbal : ¬ u.balance < orderCost svc.ourRate quantity) :
    placeOrder E uid orderId txId serviceId targetUrl quantity
      (.fail err) st =
      (.supplierError, { st with orders := st.orders ++
        [failedOrder orderId uid serviceId targetUrl quantity
          (orderCost svc.ourRate quantity) err] }) := by
  simp [placeOrder, hu, hs, hturl, hq0, hsvc, not_lt.mpr hmin,
    not_lt.mpr hmax, hbal]

theorem placeOrder_success_eq (E uid orderId txId : ℕ)
    (serviceId targetUrl : String) (quantity : ℕ) (apiId : ℕ)
    (st : St) {u : Account} {svc : Service}
    (hu : lookupUser st.users uid = some u)
    (hs : serviceId ≠ "") (hturl : targetUrl ≠ "") (hq0 : quantity ≠ 0)
    (hsvc : st.services.find? (fun s => s.serviceId == serviceId) = some svc)
    (hmin : svc.min ≤ quantity) (hmax : quantity ≤ svc.max)
    (hbal : ¬ u.balance < orderCost svc.ourRate quantity) :
    placeOrder E uid orderId txId serviceId targetUrl quantity
      (.ok apiId) st =
      (.created, { st with
        orders := st.orders ++
          [processingOrder orderId uid serviceId targetUrl quantity
            (orderCost svc.ourRate quantity) apiId]
        users := updateUser uid (debitOrder (orderCost svc.ourRate quantity))
          st.users
        txns := st.txns ++
          [orderTxn E txId uid (orderCost svc.ourRate quantity) orderId] }) := by
  simp [placeOrder, hu, hs, hturl, hq0, hsvc, not_lt.mpr hmin,
    not_lt.mpr hmax, hbal]

theorem cancelOrder_notFound_eq (E uid orderId txId : ℕ)
    (supplierCancelOk : Bool) (st : St) {u : Account}
    (hu : lookupUser st.users uid = some u)
    (hfind : st.orders.find? (isCancellable orderId uid) = none) :
    cancelOrder E uid orderId txId supplierCancelOk st = (.notFound, st) := by
  simp [cancelOrder, hu, hfind]

theorem cancelOrder_noCancelFlag_eq (E uid orderId txId : ℕ)
    (supplierCancelOk : Bool) (st : St) {u : Account} {o : OrderRec}
    {svc : Service}
    (hu : lookupUser st.users uid = some u)
    (hfind : st.orders.find? (isCancellable orderId uid) = some o)
    (hsvc : st.services.find? (fun s => s.serviceId == o.serviceId) = some svc)
    (hflag : svc.cancel = false) :
    cancelOrder E uid orderId txId supplierCancelOk st = (.badRequest, st) := by
  simp [cancelOrder, hu, hfind, hsvc, hflag]

theorem cancelOrder_supplierFail_eq (E uid orderId txId : ℕ) (st : St)
    {u : Account} {o : OrderRec} {svc : Service} {apiId : ℕ}
    (hu : lookupUser st.users uid = some u)
    (hfind : st.orders.find? (isCancellable orderId uid) = some o)
    (hsvc : st.services.find? (fun s => s.serviceId == o.serviceId) = some svc)
    (hflag : svc.cancel = true) (hapi : o.apiOrderId = some apiId) :
    cancelOrder E uid orderId txId false st = (.supplierError, st) := by
  simp [cancelOrder, hu, hfind, hsvc, hflag, hapi]

theorem cancelOrder_success_eq (E uid orderId txId : ℕ)
    (supplierCancelOk : Bool) (st : St) {u : Account} {o : OrderRec}
    {svc : Service}
    (hu : lookupUser st.users uid = some u)
    (hfind : st.orders.find? (isCancellable orderId uid) = some o)
    (hsvc : st.services.find? (fun s => s.serviceId == o.serviceId) = some svc)
    (hflag : svc.cancel = true)
    (hok : o.apiOrderId = none ∨ supplierCancelOk = true) :
    cancelOrder E uid orderId txId supplierCancelOk st =
      (.ok, { st with
                orders := updateFirstOrder (isCancellable orderId uid)
                  cancelOrderRec st.orders
                users := updateUser uid (creditRefund o.cost) st.users
                txns := st.txns ++ [refundTxn E txId uid o.cost orderId] }) := by
  have hcond : (o.apiOrderId.isSome && !supplierCancelOk) = false := by
    rcases hok with h | h
    · simp [h]
    · simp [h]
  simp [cancelOrder, hu, hfind, hsvc, hflag, hcond]

theorem placeOrder_authFail_eq (E uid orderId txId : ℕ)
    (serviceId targetUrl : String) (quantity : ℕ) (supplier : SupplierCall)
    (st : St) (hu : lookupUser st.users uid = none) :
    placeOrder E uid orderId txId serviceId targetUrl quantity supplier st =
      (.authFail, st) := by
  simp [placeOrder, hu]

theorem placeOrder_required_eq (E uid orderId txId : ℕ)
    (serviceId targetUrl : String) (quantity : ℕ) (supplier : SupplierCall)
    (st : St) {u : Account} (hu : lookupUser st.users uid = some u)
    (hreq : serviceId = "" ∨ targetUrl = "" ∨ quantity = 0) :
    placeOrder E uid orderId txId serviceId targetUrl quantity supplier st =
      (.badRequest, st) := by
  rcases hreq with h | h | h <;> simp [placeOrder, hu, h]

theorem placeOrder_noService_eq (E uid orderId txId : ℕ)
    (serviceId targetUrl : String) (quantity : ℕ) (supplier : SupplierCall)
    (st : St) {u : Account} (hu : lookupUser st.users uid = some u)
    (hs : serviceId ≠ "") (hturl : targetUrl ≠ "") (hq0 : quantity ≠ 0)
    (hsvc : st.services.find? (fun s => s.serviceId == serviceId) = none) :
    placeOrder E uid orderId txId serviceId targetUrl quantity supplier st =
      (.notFound, st) := by
  simp [placeOrder, hu, hs, hturl, hq0, hsvc]

theorem cancelOrder_authFail_eq (E uid orderId txId : ℕ)
    (supplierCancelOk : Bool) (st : St)
    (hu : lookupUser st.users uid = none) :
    cancelOrder E uid orderId txId supplierCancelOk st = (.authFail, st) := by
  simp [cancelOrder, hu]

theorem cancelOrder_noService_eq (E uid orderId txId : ℕ)
    (supplierCancelOk : Bool) (st : St) {u : Account} {o : OrderRec}
    (hu : lookupUser st.users uid = some u)
    (hfind : st.orders.find? (isCancellable orderId uid) = some o)
    (hsvc : st.services.find? (fun s => s.serviceId == o.serviceId) = none) :
    cancelOrder E uid orderId txId supplierCancelOk st = (.badRequest, st) := by
  simp [cancelOrder, hu, hfind, hsvc]

theorem signedSum_append_single (l : List Txn) (t : Txn) (v : ℕ) :
    signedSum v (l ++ [t]) = signedSum v l + contrib v t := by
  rw [signedSum_append]
  simp [signedSum]

theorem contrib_orderTxn (E txId uid : ℕ) (cost : ℤ) (orderId : ℕ) (v : ℕ) :
    contrib v (orderTxn E txId uid cost orderId) =
      if v = uid then -cost else 0 := by
  by_cases hv : uid = v
  · simp [contrib, orderTxn, signedEq, hv]
  · have hv' : ¬ v = uid := fun hc => hv hc.symm
    simp [contrib, orderTxn, hv, hv']

theorem contrib_refundTxn (E txId uid : ℕ) (cost : ℤ) (orderId : ℕ) (v : ℕ) :
    contrib v (refundTxn E txId uid cost orderId) =
      if v = uid then cost else 0 := by
  by_cases hv : uid = v
  · simp [contrib, refundTxn, signedEq, hv]
  · have hv' : ¬ v = uid := fun hc => hv hc.symm
    simp [contrib, refundTxn, hv, hv']

/-- Order placement preserves the ledger invariant. -/
theorem inv_placeOrder (E uid orderId txId : ℕ)
    (serviceId targetUrl : String) (quantity : ℕ) (supplier : SupplierCall)
    (st : St) (h : Inv st) :
    Inv (placeOrder E uid orderId txId serviceId targetUrl quantity
      supplier st).2 := by
  obtain ⟨hB, hC, hD, hE, hF⟩ := h
  cases hu : lookupUser st.users uid with
  | none =>
    rw [placeOrder_authFail_eq E uid orderId txId serviceId targetUrl
      quantity supplier st hu]
    exact ⟨hB, hC, hD, hE, hF⟩
  | some u =>
    by_cases hreq : serviceId = "" ∨ targetUrl = "" ∨ quantity = 0
    · rw [placeOrder_required_eq E uid orderId txId serviceId targetUrl
        quantity supplier st hu hreq]
      exact ⟨hB, hC, hD, hE, hF⟩
    · push_neg at hreq
      obtain ⟨hs, hturl, hq0⟩ := hreq
      cases hsvc : st.services.find? (fun s => s.serviceId == serviceId) with
      | none =>
        rw [placeOrder_noService_eq E uid orderId txId serviceId targetUrl
          quantity supplier st hu hs hturl hq0 hsvc]
        exact ⟨hB, hC, hD, hE, hF⟩
      | some svc =>
        by_cases hq : quantity < svc.min ∨ svc.max < quantity
        · rw [placeOrder_badQuantity_eq E uid orderId txId serviceId targetUrl
            quantity supplier st hu hs hturl hq0 hsvc hq]
          exact ⟨hB, hC, hD, hE, hF⟩
        · push_neg at hq
          obtain ⟨hmin', hmax'⟩ := hq
          by_cases hbal : u.balance < orderCost svc.ourRate quantity
          · rw [placeOrder_insufficient_eq E uid orderId txId serviceId
              targetUrl quantity supplier st hu hs hturl hq0 hsvc hmin' hmax'
              hbal]
            exact ⟨hB, hC, hD, hE, hF⟩
          · cases supplier with
            | fail err =>
              rw [placeOrder_supplierFail_eq E uid orderId txId serviceId
                targetUrl quantity err st hu hs hturl hq0 hsvc hmin' hmax'
                hbal]
              refine ⟨hB, hC, hD, hE, ?_⟩
              intro o' ho'
              rcases List.mem_append.mp ho' with hm | hm
              · exact hF o' hm
              · simp only [List.mem_singleton] at hm
                rw [hm]
                exact orderCost_nonneg svc.ourRate quantity
            | ok apiId =>
              rw [placeOrder_success_eq E uid orderId txId serviceId
                targetUrl quantity apiId st hu hs hturl hq0 hsvc hmin' hmax'
                hbal]
              have hsum : ∀ v, signedSum v (st.txns ++
                  [orderTxn E txId uid (orderCost svc.ourRate quantity)
                    orderId]) =
                  signedSum v st.txns +
                    (if v = uid then -(orderCost svc.ourRate quantity)
                     else 0) := by
                intro v
                rw [signedSum_append_single, contrib_orderTxn]
              refine ⟨?_, ?_, ?_, ?_, ?_⟩
              · exact inv_B_step (fun a => sub_eq_add_neg _ _) hsum hB
              · intro e' he'
                rcases List.mem_map.mp he' with ⟨e, he, hee⟩
                by_cases hk : e.1 = uid
                · rw [← hee]
                  simp only [if_pos hk]
                  have hub : u.balance = signedSum uid st.txns :=
                    hB (uid, u) (lookupUser_some_mem hu)
                  have heb : e.2.balance = signedSum uid st.txns := by
                    have := hB e he
                    rw [hk] at this
                    exact this
                  have hbal' : orderCost svc.ourRate quantity ≤ u.balance :=
                    le_of_not_lt hbal
                  have : (debitOrder (orderCost svc.ourRate quantity)
                      e.2).balance = e.2.balance -
                        orderCost svc.ourRate quantity := rfl
                  rw [this, heb, ← hub]
                  omega
                · rw [← hee]
                  simp only [if_neg hk]
                  exact hC e he
              · intro t' ht' hty
                rcases List.mem_append.mp ht' with hm | hm
                · exact hD t' hm hty
                · simp only [List.mem_singleton] at hm
                  rw [hm] at hty
                  simp [orderTxn] at hty
              · intro t' ht'
                rcases List.mem_append.mp ht' with hm | hm
                · exact (hasUser_updateUser _ _ _ _).mpr (hE t' hm)
                · simp only [List.mem_singleton] at hm
                  rw [hm]
                  exact (hasUser_updateUser _ _ _ _).mpr
                    (hasUser_of_lookup_some hu)
              · intro o' ho'
                rcases List.mem_append.mp ho' with hm | hm
                · exact hF o' hm
                · simp only [List.mem_singleton] at hm
                  rw [hm]
                  exact orderCost_nonneg svc.ourRate quantity

/-- Order cancellation preserves the ledger invariant. -/
theorem inv_cancelOrder (E uid orderId txId : ℕ) (supplierCancelOk : Bool)
    (st : St) (h : Inv st) :
    Inv (cancelOrder E uid orderId txId supplierCancelOk st).2 := by
  obtain ⟨hB, hC, hD, hE, hF⟩ := h
  cases hu : lookupUser st.users uid with
  | none =>
    rw [cancelOrder_authFail_eq E uid orderId txId supplierCancelOk st hu]
    exact ⟨hB, hC, hD, hE, hF⟩
  | some u =>
    cases hfind : st.orders.find? (isCancellable orderId uid) with
    | none =>
      rw [cancelOrder_notFound_eq E uid orderId txId supplierCancelOk st
        hu hfind]
      exact ⟨hB, hC, hD, hE, hF⟩
    | some o =>
      have homem := List.mem_of_find?_eq_some hfind
      obtain ⟨hoid, houid, hostat⟩ := isCancellable_spec (List.find?_some hfind)
      cases hsvc : st.services.find? (fun s => s.serviceId == o.serviceId) with
      | none =>
        rw [cancelOrder_noService_eq E uid orderId txId supplierCancelOk st
          hu hfind hsvc]
        exact ⟨hB, hC, hD, hE, hF⟩
      | some svc =>
        cases hflag : svc.cancel with
        | false =>
          rw [cancelOrder_noCancelFlag_eq E uid orderId txId supplierCancelOk
            st hu hfind hsvc hflag]
          exact ⟨hB, hC, hD, hE, hF⟩
        | true =>
          by_cases hok : o.apiOrderId = none ∨ supplierCancelOk = true
          · rw [cancelOrder_success_eq E uid orderId txId supplierCancelOk st
              hu hfind hsvc hflag hok]
            have hcost : 0 ≤ o.cost := hF o homem
            have hsum : ∀ v, signedSum v (st.txns ++
                [refundTxn E txId uid o.cost orderId]) =
                signedSum v st.txns + (if v = uid then o.cost else 0) := by
              intro v
              rw [signedSum_append_single, contrib_refundTxn]
            refine ⟨?_, ?_, ?_, ?_, ?_⟩
            · exact inv_B_step (fun a => rfl) hsum hB
            · exact inv_C_step (fun a => rfl) hcost hC
            · intro t' ht' hty
              rcases List.mem_append.mp ht' with hm | hm
              · exact hD t' hm hty
              · simp only [List.mem_singleton] at hm
                rw [hm] at hty
                simp [refundTxn] at hty
            · intro t' ht'
              rcases List.mem_append.mp ht' with hm | hm
              · exact (hasUser_updateUser _ _ _ _).mpr (hE t' hm)
              · simp only [List.mem_singleton] at hm
                rw [hm]
                exact (hasUser_updateUser _ _ _ _).mpr
                  (hasUser_of_lookup_some hu)
            · intro o' ho'
              rcases mem_updateFirstOrder ho' with hm | ⟨y, hy, hpy, hxy⟩
              · exact hF o' hm
              · rw [hxy]
                exact hF y hy
          · push_neg at hok
            obtain ⟨hapi, hsc⟩ := hok
            rcases Option.ne_none_iff_exists.mp hapi with ⟨apiId, hapiId⟩
            have hsc' : supplierCancelOk = false := by
              cases supplierCancelOk
              · rfl
              · exact absurd rfl hsc
            rw [hsc']
            rw [cancelOrder_supplierFail_eq E uid orderId txId st hu hfind
              hsvc hflag hapiId.symm]
            exact ⟨hB, hC, hD, hE, hF⟩

/-- Registration preserves the ledger invariant. -/
theorem inv_register (uid : ℕ) (code : String) (rc : Option String) (st : St)
    (h : Inv st) : Inv (register uid code rc st).2 := by
  obtain ⟨hB, hC, hD, hE, hF⟩ := h
  unfold register
  cases hl : lookupUser st.users uid with
  | some a => exact ⟨hB, hC, hD, hE, hF⟩
  | none =>
    have hnu : ¬ hasUser st.users uid := (lookupUser_eq_none_iff _ _).mp hl
    refine ⟨?_, ?_, hD, ?_, hF⟩
    · intro e he
      rcases List.mem_append.mp he with h1 | h1
      · exact hB e h1
      · simp only [List.mem_singleton] at h1
        rw [h1]
      -- the fresh user has balance 0 and owns no transaction yet
        refine (signedSum_eq_zero ?_).symm
        intro t ht hteq
        have hteq' : t.userId = uid := hteq
        exact hnu (hteq' ▸ hE t ht)
    · intro e he
      rcases List.mem_append.mp he with h1 | h1
      · exact hC e h1
      · simp only [List.mem_singleton] at h1
        rw [h1]
    · intro t ht
      rcases hE t ht with ⟨e, he, hk⟩
      exact ⟨e, List.mem_append_left _ he, hk⟩

/-- A deposit request preserves the ledger invariant: it only appends a
pending transaction with non-negative equities. -/
theorem inv_depositRequest (E : ℕ) (uid txId rc : ℕ) (amount : ℚ) (st : St)
    (h : Inv st) : Inv (depositRequest E uid txId rc amount st).2 := by
  obtain ⟨hB, hC, hD, hE, hF⟩ := h
  unfold depositRequest
  cases hl : lookupUser st.users uid with
  | none => exact ⟨hB, hC, hD, hE, hF⟩
  | some u =>
    simp only
    split_ifs with h0 h1 h2
    · exact ⟨hB, hC, hD, hE, hF⟩
    · exact ⟨hB, hC, hD, hE, hF⟩
    · exact ⟨hB, hC, hD, hE, hF⟩
    · refine ⟨?_, hC, ?_, ?_, hF⟩
      · intro e he
        rw [signedSum_append]
        have hz : signedSum e.1 [depositTxn E txId uid rc amount] = 0 := by
          simp [signedSum, contrib, depositTxn]
        rw [hz, hB e he]
        ring
      · intro t ht hty
        rcases List.mem_append.mp ht with hm | hm
        · exact hD t hm hty
        · simp only [List.mem_singleton] at hm
          rw [hm]
          have ha : (500 : ℚ) ≤ amount := le_of_not_lt h1
          have hq : (0 : ℚ) ≤ amount / (E : ℚ) :=
            div_nonneg (by linarith) (by positivity)
          show 0 ≤ ⌊amount / (E : ℚ)⌋
          exact Int.floor_nonneg.mpr hq
      · intro t ht
        rcases List.mem_append.mp ht with hm | hm
        · exact hE t hm
        · simp only [List.mem_singleton] at hm
          rw [hm]
          exact hasUser_of_lookup_some hl

/-- Every single API operation preserves the ledger invariant. -/
theorem inv_step (E : ℕ) (st : St) (op : Op) (h : Inv st) :
    Inv (step E st op) := by
  cases op with
  | register uid code rc => exact inv_register uid code rc st h
  | depositRequest uid txId rc amount =>
    exact inv_depositRequest E uid txId rc amount st h
  | adminDeposit admin action txId newTxId =>
    exact inv_adminDeposit E admin action txId newTxId st h
  | placeOrder uid oid txId sid url q sup =>
    exact inv_placeOrder E uid oid txId sid url q sup st h
  | cancelOrder uid oid txId ok1 => exact inv_cancelOrder E uid oid txId ok1 st h

/-- The empty store satisfies the ledger invariant. -/
theorem inv_init (services : List Service) : Inv (initSt services) := by
  refine ⟨?_, ?_, ?_, ?_, ?_⟩ <;> intro x hx <;> simp [initSt] at hx

/-- Every state reached by a sequential execution satisfies the invariant. -/
theorem inv_run (E : ℕ) (services : List Service) (ops : List Op) :
    Inv (run E services ops) := by
  have key : ∀ (l : List Op) (st : St), Inv st → Inv (l.foldl (step E) st) := by
    intro l
    induction l with
    | nil => intro st h; exact h
    | cons op l ih =>
      intro st h
      exact ih _ (inv_step E st op h)
  exact key ops _ (inv_init services)

/-- C1: after every sequential execution of the API operations from the empty
store, every account balance equals the signed sum of the equities of the
completed transactions of that account (deposits, refunds and referral
bonuses positive, orders negative), and no balance is ever negative. -/
theorem balance_equals_signed_sum (E : ℕ) (services : List Service)
    (ops : List Op) :
    ∀ e ∈ (run E services ops).users,
      e.2.balance = signedSum e.1 (run E services ops).txns ∧
        0 ≤ e.2.balance := by
  obtain ⟨hB, hC, _, _, _⟩ := inv_run E services ops
  intro e he
  exact ⟨hB e he, hC e he⟩

/-- C1 witness: the invariant evaluated on the sample execution, for the
referring user, whose balance 20 is the bonus from the approved deposit. -/
theorem balance_equals_signed_sum_witness :
    (1, acctW) ∈ (run 10 [svcW] opsW).users ∧
    acctW.balance = signedSum 1 (run 10 [svcW] opsW).txns ∧
    (0 : ℤ) ≤ acctW.balance := by
  have hmem : (1, acctW) ∈ (run 10 [svcW] opsW).users := by decide
  obtain ⟨h1, h2⟩ := balance_equals_signed_sum 10 [svcW] opsW _ hmem
  exact ⟨hmem, h1, h2⟩

/-- Rounding up after dividing by a positive natural gives the same result
whether or not the dividend was first rounded up to an integer. -/
theorem ceil_intCast_div_eq_ceil_div (x : ℚ) (n : ℕ) (hn : 0 < n) :
    ⌈(⌈x⌉ : ℚ) / (n : ℚ)⌉ = ⌈x / (n : ℚ)⌉ := by
  have hn' : (0 : ℚ) < n := by exact_mod_cast hn
  apply le_antisymm
  · rw [Int.ceil_le, div_le_iff₀ hn']
    have h1 : x / n ≤ (⌈x / n⌉ : ℚ) := Int.le_ceil _
    have h2 : x ≤ (⌈x / n⌉ : ℚ) * n := by
      calc x = x / n * n := by field_simp
        _ ≤ (⌈x / n⌉ : ℚ) * n := mul_le_mul_of_nonneg_right h1 (le_of_lt hn')
    have h3 : ⌈x⌉ ≤ ⌈x / n⌉ * n := by
      calc ⌈x⌉ ≤ ⌈(⌈x / n⌉ : ℚ) * n⌉ := Int.ceil_le_ceil h2
        _ = ⌈x / n⌉ * n := by
          rw [show ((⌈x / n⌉ : ℚ) * n) = ((⌈x / n⌉ * n : ℤ) : ℚ) by push_cast; ring,
            Int.ceil_intCast]
    exact_mod_cast h3
  · apply Int.ceil_le_ceil
    gcongr
    exact Int.le_ceil x

/-- C4: for every supplier rate R, markup M% and equity value E > 0, the stored
naira rate is ceil(R * (1 + M/100)) and the stored equity rate equals the
ceiling of that already-ceiled naira rate divided by E, i.e. the two-stage
rounding formula holds for the prices stored during catalog sync. -/
theorem calculateOurPrice_two_stage (M E : ℕ) (R : ℚ) (hE : 0 < E) :
    (calculateOurPrice M E R).naira = ⌈R * (1 + (M : ℚ) / 100)⌉ ∧
    (calculateOurPrice M E R).equities =
      ⌈((⌈R * (1 + (M : ℚ) / 100)⌉ : ℤ) : ℚ) / (E : ℚ)⌉ := by
  refine ⟨rfl, ?_⟩
  show ⌈R * (1 + (M : ℚ) / 100) / (E : ℚ)⌉ = _
  rw [ceil_intCast_div_eq_ceil_div (R * (1 + (M : ℚ) / 100)) E hE]

/-- C4 witness: the two-stage formula at M = 50, E = 10, R = 101. -/
theorem calculateOurPrice_two_stage_witness :
    0 < 10 ∧
    ((calculateOurPrice 50 10 101).naira = ⌈(101 : ℚ) * (1 + (50 : ℚ) / 100)⌉ ∧
     (calculateOurPrice 50 10 101).equities =
       ⌈((⌈(101 : ℚ) * (1 + (50 : ℚ) / 100)⌉ : ℤ) : ℚ) / ((10 : ℕ) : ℚ)⌉) :=
  ⟨by decide, calculateOurPrice_two_stage 50 10 101 (by decide)⟩

/-- C10: the classification rules run in fixed priority order over the
lowercased name with no word boundaries: any name whose lowercased form
contains the substring "ig" anywhere is classified "instagram", and any name
containing the letter "x" but none of the earlier-priority keywords
(instagram, ig, tiktok, youtube, yt) is classified "twitter". -/
theorem detectPlatform_priority (serviceName : String) :
    (nameIncludes (lowerData serviceName) "ig" = true →
      detectPlatform serviceName = "instagram") ∧
    (nameIncludes (lowerData serviceName) "x" = true →
      nameIncludes (lowerData serviceName) "instagram" = false →
      nameIncludes (lowerData serviceName) "ig" = false →
      nameIncludes (lowerData serviceName) "tiktok" = false →
      nameIncludes (lowerData serviceName) "youtube" = false →
      nameIncludes (lowerData serviceName) "yt" = false →
      detectPlatform serviceName = "twitter") := by
  constructor
  · intro h
    simp only [detectPlatform, h, Bool.or_true, if_true]
  · intro hx h1 h2 h3 h4 h5
    simp only [detectPlatform, h1, h2, h3, h4, h5, hx, Bool.or_false, Bool.or_true,
      if_false, if_true, Bool.false_or]
    simp

/-- C10 witness: a name containing "ig" only inside the word "High" is
classified instagram, and a name whose only keyword letter is the "x" in
"Max" is classified twitter. -/
theorem detectPlatform_priority_witness :
    detectPlatform "High Definition Followers" = "instagram" ∧
    detectPlatform "Max Followers" = "twitter" :=
  ⟨(detectPlatform_priority "High Definition Followers").1 (by decide),
   (detectPlatform_priority "Max Followers").2 (by decide) (by decide) (by decide)
     (by decide) (by decide) (by decide)⟩

/-- C2: the approve/reject lookup filters on pending status, so when every
deposit carrying the requested transactionId is already completed or
cancelled, both the approve and the reject action report not-found and leave
the store unchanged. -/
theorem deposit_approval_idempotent (E : ℕ) (admin : String)
    (action : DepositAction) (txId newTxId : ℕ) (st : St)
    (h : ∀ t ∈ st.txns, t.transactionId = txId → t.ttype = TxnType.deposit →
      t.status = TxnStatus.completed ∨ t.status = TxnStatus.cancelled) :
    adminDepositDecision E admin action txId newTxId st = (.notFound, st) := by
  apply adminDeposit_notFound_eq
  rw [List.find?_eq_none]
  intro t ht hp
  obtain ⟨h1, h2, h3⟩ := isPendingDeposit_spec hp
  rcases h t ht h1 h2 with hc | hc <;>
    (rw [h3] at hc; exact TxnStatus.noConfusion hc)

/-- C2 witness: a second approve and a second reject of the already-completed
deposit in stC2 both report not-found and change nothing. -/
theorem deposit_approval_idempotent_witness :
    adminDepositDecision 10 "admin" DepositAction.approve 100 101 stC2 =
      (Res.notFound, stC2) ∧
    adminDepositDecision 10 "admin" DepositAction.reject 100 101 stC2 =
      (Res.notFound, stC2) :=
  ⟨deposit_approval_idempotent 10 "admin" .approve 100 101 stC2 (by decide),
   deposit_approval_idempotent 10 "admin" .reject 100 101 stC2 (by decide)⟩

/-- C3: approving a pending deposit credits the referrer of the depositor
floor(equities * 0.10) to balance and referralEarnings, bumps referralCount
by one, and appends exactly one completed referral transaction, when
referredBy resolves to a distinct existing account; when referredBy is unset
or does not resolve, the state changes by the depositor credit and status
flip only, with no referral transaction. -/
theorem referral_cascade (E : ℕ) (admin : String) (txId newTxId : ℕ)
    (st : St) (t : Txn) (u : Account)
    (hfind : st.txns.find? (isPendingDeposit txId) = some t)
    (hu : lookupUser st.users t.userId = some u) :
    (u.referredBy = none →
      adminDepositDecision E admin .approve txId newTxId st =
        (.ok, { st with
                  users := updateUser t.userId (creditDeposit t.equities)
                    st.users
                  txns := updateFirstTxn (isPendingDeposit txId)
                    (finishTxn .completed admin) st.txns })) ∧
    (∀ code, u.referredBy = some code →
      findByReferralCode st.users code = none →
      adminDepositDecision E admin .approve txId newTxId st =
        (.ok, { st with
                  users := updateUser t.userId (creditDeposit t.equities)
                    st.users
                  txns := updateFirstTxn (isPendingDeposit txId)
                    (finishTxn .completed admin) st.txns })) ∧
    (∀ code rid r, u.referredBy = some code →
      findByReferralCode st.users code = some (rid, r) →
      rid ≠ t.userId →
      lookupUser st.users rid = some r →
      referralBonus t.equities = ⌊(t.equities : ℚ) * (10 / 100)⌋ ∧
      (adminDepositDecision E admin .approve txId newTxId st).1 = Res.ok ∧
      lookupUser
        (adminDepositDecision E admin .approve txId newTxId st).2.users rid =
        some (creditReferrer (referralBonus t.equities) r) ∧
      (creditReferrer (referralBonus t.equities) r).balance =
        r.balance + referralBonus t.equities ∧
      (creditReferrer (referralBonus t.equities) r).referralEarnings =
        r.referralEarnings + referralBonus t.equities ∧
      (creditReferrer (referralBonus t.equities) r).referralCount =
        r.referralCount + 1 ∧
      (adminDepositDecision E admin .approve txId newTxId st).2.txns =
        updateFirstTxn (isPendingDeposit txId) (finishTxn .completed admin)
          st.txns ++ [referralTxn E newTxId rid txId (referralBonus t.equities)] ∧
      (referralTxn E newTxId rid txId (referralBonus t.equities)).ttype =
        TxnType.referral ∧
      (referralTxn E newTxId rid txId (referralBonus t.equities)).status =
        TxnStatus.completed ∧
      (referralTxn E newTxId rid txId (referralBonus t.equities)).equities =
        referralBonus t.equities) := by
  refine ⟨?_, ?_, ?_⟩
  · intro hrb
    exact adminDeposit_approve_noReferrer_eq E admin txId newTxId st hfind
      hu hrb
  · intro code hrb hfr0
    have hfr : findByReferralCode
        (updateUser t.userId (creditDeposit t.equities) st.users) code =
        none := by
      rw [findByReferralCode_updateUser t.userId (creditDeposit t.equities)
        (fun a => rfl) st.users code, hfr0]
      rfl
    exact adminDeposit_approve_unresolved_eq E admin txId newTxId st hfind
      hu hrb hfr
  · intro code rid r hrb hfr0 hne hr
    have hfr : findByReferralCode
        (updateUser t.userId (creditDeposit t.equities) st.users) code =
        some (rid, r) := by
      rw [findByReferralCode_updateUser t.userId (creditDeposit t.equities)
        (fun a => rfl) st.users code, hfr0]
      simp [hne]
    have heq := adminDeposit_approve_referrer_eq E admin txId newTxId st
      hfind hu hrb hfr
    refine ⟨rfl, by rw [heq], ?_, rfl, rfl, rfl, by rw [heq], rfl, rfl, rfl⟩
    rw [heq]
    show lookupUser (updateUser rid (creditReferrer (referralBonus t.equities))
      (updateUser t.userId (creditDeposit t.equities) st.users)) rid = _
    rw [lookupUser_updateUser_self,
      lookupUser_updateUser_ne hne (creditDeposit t.equities) st.users, hr]
    rfl

/-- C3 witness: approving the pending 200-equity deposit of user 2 in stC3
credits referrer user 1 a bonus of 20 and appends one referral transaction. -/
theorem referral_cascade_witness :
    referralBonus (200 : ℤ) = 20 ∧
    lookupUser
      (adminDepositDecision 10 "admin" DepositAction.approve 100 101
        stC3).2.users 1 =
      some (creditReferrer (referralBonus (200 : ℤ)) (acct0 "RA" none 0)) ∧
    (adminDepositDecision 10 "admin" DepositAction.approve 100 101
      stC3).2.txns =
      updateFirstTxn (isPendingDeposit 100) (finishTxn .completed "admin")
        stC3.txns ++ [referralTxn 10 101 1 100 (referralBonus (200 : ℤ))] := by
  have h := (referral_cascade 10 "admin" 100 101 stC3 tC3
    (acct0 "RB" (some "RA") 0) (by decide) (by decide)).2.2 "RA" 1
    (acct0 "RA" none 0) rfl (by decide) (by decide) (by decide)
  exact ⟨by decide, h.2.2.1, h.2.2.2.2.2.2.1⟩

/-- C5: an order placement with quantity inside the service bounds, balance
covering cost = ceil(ourRate/1000 * quantity), and a successful supplier
call, persists the order as processing with the supplier apiOrderId, debits
the balance by exactly cost, adds cost to totalSpent, bumps totalOrders by
one, and appends exactly one completed order transaction of cost equities. -/
theorem order_placement_success (E uid orderId txId : ℕ)
    (serviceId targetUrl : String) (quantity apiId : ℕ) (st : St)
    (u : Account) (svc : Service)
    (hu : lookupUser st.users uid = some u)
    (hs : serviceId ≠ "") (hturl : targetUrl ≠ "") (hq0 : quantity ≠ 0)
    (hsvc : st.services.find? (fun s => s.serviceId == serviceId) = some svc)
    (hmin : svc.min ≤ quantity) (hmax : quantity ≤ svc.max)
    (hbal : orderCost svc.ourRate quantity ≤ u.balance) :
    (placeOrder E uid orderId txId serviceId targetUrl quantity
      (.ok apiId) st).1 = Res.created ∧
    (placeOrder E uid orderId txId serviceId targetUrl quantity
      (.ok apiId) st).2.orders = st.orders ++
      [processingOrder orderId uid serviceId targetUrl quantity
        (orderCost svc.ourRate quantity) apiId] ∧
    (processingOrder orderId uid serviceId targetUrl quantity
      (orderCost svc.ourRate quantity) apiId).status =
      OrderStatus.processing ∧
    (processingOrder orderId uid serviceId targetUrl quantity
      (orderCost svc.ourRate quantity) apiId).apiOrderId = some apiId ∧
    lookupUser (placeOrder E uid orderId txId serviceId targetUrl quantity
      (.ok apiId) st).2.users uid =
      some (debitOrder (orderCost svc.ourRate quantity) u) ∧
    (debitOrder (orderCost svc.ourRate quantity) u).balance =
      u.balance - orderCost svc.ourRate quantity ∧
    (debitOrder (orderCost svc.ourRate quantity) u).totalSpent =
      u.totalSpent + orderCost svc.ourRate quantity ∧
    (debitOrder (orderCost svc.ourRate quantity) u).totalOrders =
      u.totalOrders + 1 ∧
    (placeOrder E uid orderId txId serviceId targetUrl quantity
      (.ok apiId) st).2.txns = st.txns ++
      [orderTxn E txId uid (orderCost svc.ourRate quantity) orderId] ∧
    (orderTxn E txId uid (orderCost svc.ourRate quantity) orderId).ttype =
      TxnType.order ∧
    (orderTxn E txId uid (orderCost svc.ourRate quantity) orderId).status =
      TxnStatus.completed ∧
    (orderTxn E txId uid (orderCost svc.ourRate quantity) orderId).equities =
      orderCost svc.ourRate quantity := by
  have heq := placeOrder_success_eq E uid orderId txId serviceId targetUrl
    quantity apiId st hu hs hturl hq0 hsvc hmin hmax (not_lt.mpr hbal)
  refine ⟨by rw [heq], by rw [heq], rfl, rfl, ?_, rfl, rfl, rfl,
    by rw [heq], rfl, rfl, rfl⟩
  rw [heq]
  show lookupUser (updateUser uid (debitOrder (orderCost svc.ourRate quantity))
    st.users) uid = _
  rw [lookupUser_updateUser_self, hu]
  rfl

/-- C5 witness: placing 100 units of the sample service from a balance of 50
at cost 15 succeeds, debits 15 and writes one 15-equity order transaction. -/
theorem order_placement_success_witness :
    (placeOrder 10 1 500 102 "101" "url" 100 (.ok 777) stC5).1 =
      Res.created ∧
    lookupUser (placeOrder 10 1 500 102 "101" "url" 100
      (.ok 777) stC5).2.users 1 =
      some (debitOrder (orderCost 150 100) (acct0 "RA" none 50)) ∧
    (placeOrder 10 1 500 102 "101" "url" 100 (.ok 777) stC5).2.txns =
      [orderTxn 10 102 1 (orderCost 150 100) 500] := by
  have h := order_placement_success 10 1 500 102 "101" "url" 100 777 stC5
    (acct0 "RA" none 50) svcW (by decide) (by decide) (by decide) (by decide)
    (by decide) (by decide) (by decide) (by decide)
  exact ⟨h.1, h.2.2.2.2.1, h.2.2.2.2.2.2.2.2.1⟩

/-- C6: an order placement whose quantity lies outside the service bounds is
rejected with no state change, and one whose balance cannot cover the cost
is rejected as insufficient balance with no state change. -/
theorem order_placement_rejected (E uid orderId txId : ℕ)
    (serviceId targetUrl : String) (quantity : ℕ) (supplier : SupplierCall)
    (st : St) (u : Account) (svc : Service)
    (hu : lookupUser st.users uid = some u)
    (hs : serviceId ≠ "") (hturl : targetUrl ≠ "") (hq0 : quantity ≠ 0)
    (hsvc : st.services.find? (fun s => s.serviceId == serviceId) = some svc) :
    (quantity < svc.min ∨ svc.max < quantity →
      placeOrder E uid orderId txId serviceId targetUrl quantity supplier st =
        (.badRequest, st)) ∧
    (svc.min ≤ quantity → quantity ≤ svc.max →
      u.balance < orderCost svc.ourRate quantity →
      placeOrder E uid orderId txId serviceId targetUrl quantity supplier st =
        (.insufficientBalance, st)) :=
  ⟨fun hbad => placeOrder_badQuantity_eq E uid orderId txId serviceId
      targetUrl quantity supplier st hu hs hturl hq0 hsvc hbad,
   fun hmin hmax hbal => placeOrder_insufficient_eq E uid orderId txId
      serviceId targetUrl quantity supplier st hu hs hturl hq0 hsvc hmin
      hmax hbal⟩

/-- C6 witness: ordering 5 units (below min 10) is rejected unchanged, and
ordering 1000 units at cost 150 from balance 50 is rejected as insufficient
balance, unchanged. -/
theorem order_placement_rejected_witness :
    placeOrder 10 1 500 102 "101" "url" 5 (.ok 777) stC5 =
      (Res.badRequest, stC5) ∧
    placeOrder 10 1 500 102 "101" "url" 1000 (.ok 777) stC5 =
      (Res.insufficientBalance, stC5) :=
  ⟨(order_placement_rejected 10 1 500 102 "101" "url" 5 (.ok 777) stC5
      (acct0 "RA" none 50) svcW (by decide) (by decide) (by decide)
      (by decide) (by decide)).1 (by decide),
   (order_placement_rejected 10 1 500 102 "101" "url" 1000 (.ok 777) stC5
      (acct0 "RA" none 50) svcW (by decide) (by decide) (by decide)
      (by decide) (by decide)).2 (by decide) (by decide) (by decide)⟩

/-- C7: an order placement that passes validation but whose supplier call
fails persists exactly one failed order with the raw error attached, returns
a supplier failure, and leaves users, balances and transactions unchanged. -/
theorem order_placement_supplier_failure (E uid orderId txId : ℕ)
    (serviceId targetUrl : String) (quantity : ℕ) (err : String) (st : St)
    (u : Account) (svc : Service)
    (hu : lookupUser st.users uid = some u)
    (hs : serviceId ≠ "") (hturl : targetUrl ≠ "") (hq0 : quantity ≠ 0)
    (hsvc : st.services.find? (fun s => s.serviceId == serviceId) = some svc)
    (hmin : svc.min ≤ quantity) (hmax : quantity ≤ svc.max)
    (hbal : orderCost svc.ourRate quantity ≤ u.balance) :
    (placeOrder E uid orderId txId serviceId targetUrl quantity
      (.fail err) st).1 = Res.supplierError ∧
    (placeOrder E uid orderId txId serviceId targetUrl quantity
      (.fail err) st).2.orders = st.orders ++
      [failedOrder orderId uid serviceId targetUrl quantity
        (orderCost svc.ourRate quantity) err] ∧
    (failedOrder orderId uid serviceId targetUrl quantity
      (orderCost svc.ourRate quantity) err).status = OrderStatus.failed ∧
    (failedOrder orderId uid serviceId targetUrl quantity
      (orderCost svc.ourRate quantity) err).apiResponse = some err ∧
    (placeOrder E uid orderId txId serviceId targetUrl quantity
      (.fail err) st).2.users = st.users ∧
    (placeOrder E uid orderId txId serviceId targetUrl quantity
      (.fail err) st).2.txns = st.txns := by
  have heq := placeOrder_supplierFail_eq E uid orderId txId serviceId
    targetUrl quantity err st hu hs hturl hq0 hsvc hmin hmax
    (not_lt.mpr hbal)
  exact ⟨by rw [heq], by rw [heq], rfl, rfl, by rw [heq], by rw [heq]⟩

/-- C7 witness: at the supplier failure with error text the order is
persisted as failed and nothing else changes in stC5. -/
theorem order_placement_supplier_failure_witness :
    (placeOrder 10 1 500 102 "101" "url" 100 (.fail "down") stC5).1 =
      Res.supplierError ∧
    (placeOrder 10 1 500 102 "101" "url" 100 (.fail "down") stC5).2.orders =
      [failedOrder 500 1 "101" "url" 100 (orderCost 150 100) "down"] ∧
    (placeOrder 10 1 500 102 "101" "url" 100 (.fail "down") stC5).2.users =
      stC5.users ∧
    (placeOrder 10 1 500 102 "101" "url" 100 (.fail "down") stC5).2.txns =
      stC5.txns := by
  have h := order_placement_supplier_failure 10 1 500 102 "101" "url" 100
    "down" stC5 (acct0 "RA" none 50) svcW (by decide) (by decide) (by decide)
    (by decide) (by decide) (by decide) (by decide) (by decide)
  exact ⟨h.1, h.2.1, h.2.2.2.2.1, h.2.2.2.2.2⟩

/-- C8: cancellation reports not-found when no order of the caller with the
requested id is pending or processing; with a matching order it fails
unchanged when the service cancel flag is off or the supplier cancel call
fails; on success the order is marked cancelled, the balance is credited the
full cost, and exactly one completed refund transaction of cost equities is
appended. -/
theorem order_cancellation_contract (E uid orderId txId : ℕ)
    (supplierCancelOk : Bool) (st : St) (u : Account)
    (hu : lookupUser st.users uid = some u) :
    ((∀ o' ∈ st.orders, o'.orderId = orderId → o'.userId = uid →
        o'.status ≠ OrderStatus.pending ∧ o'.status ≠ OrderStatus.processing) →
      cancelOrder E uid orderId txId supplierCancelOk st = (.notFound, st)) ∧
    (∀ o svc, st.orders.find? (isCancellable orderId uid) = some o →
      st.services.find? (fun s => s.serviceId == o.serviceId) = some svc →
      (svc.cancel = false →
        cancelOrder E uid orderId txId supplierCancelOk st =
          (.badRequest, st)) ∧
      (∀ apiId, svc.cancel = true → o.apiOrderId = some apiId →
        cancelOrder E uid orderId txId false st = (.supplierError, st)) ∧
      (svc.cancel = true → (o.apiOrderId = none ∨ supplierCancelOk = true) →
        (cancelOrder E uid orderId txId supplierCancelOk st).1 = Res.ok ∧
        (cancelOrder E uid orderId txId supplierCancelOk st).2.orders =
          updateFirstOrder (isCancellable orderId uid) cancelOrderRec
            st.orders ∧
        (cancelOrderRec o).status = OrderStatus.cancelled ∧
        lookupUser (cancelOrder E uid orderId txId supplierCancelOk
          st).2.users uid = some (creditRefund o.cost u) ∧
        (creditRefund o.cost u).balance = u.balance + o.cost ∧
        (cancelOrder E uid orderId txId supplierCancelOk st).2.txns =
          st.txns ++ [refundTxn E txId uid o.cost orderId] ∧
        (refundTxn E txId uid o.cost orderId).ttype = TxnType.refund ∧
        (refundTxn E txId uid o.cost orderId).status = TxnStatus.completed ∧
        (refundTxn E txId uid o.cost orderId).equities = o.cost)) := by
  constructor
  · intro hnone
    have hfind : st.orders.find? (isCancellable orderId uid) = none := by
      rw [List.find?_eq_none]
      intro o' ho' hp
      obtain ⟨h1, h2, h3⟩ := isCancellable_spec hp
      rcases h3 with hs3 | hs3
      · exact (hnone o' ho' h1 h2).1 hs3
      · exact (hnone o' ho' h1 h2).2 hs3
    exact cancelOrder_notFound_eq E uid orderId txId supplierCancelOk st
      hu hfind
  · intro o svc hfind hsvc
    refine ⟨?_, ?_, ?_⟩
    · intro hflag
      exact cancelOrder_noCancelFlag_eq E uid orderId txId supplierCancelOk
        st hu hfind hsvc hflag
    · intro apiId hflag hapi
      exact cancelOrder_supplierFail_eq E uid orderId txId st hu hfind hsvc
        hflag hapi
    · intro hflag hok
      have heq := cancelOrder_success_eq E uid orderId txId supplierCancelOk
        st hu hfind hsvc hflag hok
      refine ⟨by rw [heq], by rw [heq], rfl, ?_, rfl, by rw [heq], rfl,
        rfl, rfl⟩
      rw [heq]
      show lookupUser (updateUser uid (creditRefund o.cost) st.users) uid = _
      rw [lookupUser_updateUser_self, hu]
      rfl

/-- C8 witness: cancelling the processing order in stC8 with a successful
supplier cancel refunds 15 and writes one refund transaction, and the same
cancellation fails unchanged when the supplier cancel call fails. -/
theorem order_cancellation_contract_witness :
    (cancelOrder 10 1 500 103 true stC8).1 = Res.ok ∧
    lookupUser (cancelOrder 10 1 500 103 true stC8).2.users 1 =
      some (creditRefund 15 (acct0 "RA" none 50)) ∧
    (cancelOrder 10 1 500 103 true stC8).2.txns =
      [refundTxn 10 103 1 15 500] ∧
    cancelOrder 10 1 500 103 false stC8 = (Res.supplierError, stC8) := by
  have h := (order_cancellation_contract 10 1 500 103 true stC8
    (acct0 "RA" none 50) (by decide)).2
    { orderId := 500, userId := 1, serviceId := "101", targetUrl := "url",
      quantity := 100, cost := 15, status := .processing,
      apiOrderId := some 777, apiResponse := none } svcW (by decide)
    (by decide)
  have hsucc := h.2.2 rfl (Or.inr rfl)
  have hfail := ((order_cancellation_contract 10 1 500 103 false stC8
    (acct0 "RA" none 50) (by decide)).2
    { orderId := 500, userId := 1, serviceId := "101", targetUrl := "url",
      quantity := 100, cost := 15, status := .processing,
      apiOrderId := some 777, apiResponse := none } svcW (by decide)
    (by decide)).2.1 777 rfl rfl
  exact ⟨hsucc.1, hsucc.2.2.2.1, hsucc.2.2.2.2.2.1, hfail⟩

/-- C9 counterexample: a deposit request of 505 naira (accepted, inside
[500, 500000]) creates a transaction whose amount 505 differs from
equities * EQUITY_VALUE = 50 * 10 = 500, so amount = equities * EQUITY_VALUE
does not hold for every created transaction. -/
theorem txn_rate_consistency_counterexample :
    (depositRequest 10 1 100 900 505 stC9).1 = Res.created ∧
    (depositRequest 10 1 100 900 505 stC9).2.txns =
      [depositTxn 10 100 1 900 505] ∧
    (depositTxn 10 100 1 900 505).amount = 505 ∧
    (depositTxn 10 100 1 900 505).equities = 50 ∧
    ((depositTxn 10 100 1 900 505).equities : ℚ) * (10 : ℚ) = 500 ∧
    (depositTxn 10 100 1 900 505).amount ≠
      ((depositTxn 10 100 1 900 505).equities : ℚ) * (10 : ℚ) := by
  refine ⟨by decide, by decide, by decide, by decide, by decide, by decide⟩

theorem txnConsistent_finishTxn {E : ℕ} {status : TxnStatus} {admin : String}
    {t : Txn} (h : TxnConsistent E t) :
    TxnConsistent E (finishTxn status admin t) := h

theorem txnConsistent_referralTxn (E newTxId rid txId : ℕ) (bonus : ℤ) :
    TxnConsistent E (referralTxn E newTxId rid txId bonus) :=
  ⟨fun _ => rfl, fun hty => TxnType.noConfusion hty⟩

theorem txnConsistent_orderTxn (E txId uid : ℕ) (cost : ℤ) (orderId : ℕ) :
    TxnConsistent E (orderTxn E txId uid cost orderId) :=
  ⟨fun _ => rfl, fun hty => TxnType.noConfusion hty⟩

theorem txnConsistent_refundTxn (E txId uid : ℕ) (cost : ℤ) (orderId : ℕ) :
    TxnConsistent E (refundTxn E txId uid cost orderId) :=
  ⟨fun _ => rfl, fun hty => TxnType.noConfusion hty⟩

theorem register_txns_eq (uid : ℕ) (code : String) (rc : Option String)
    (st : St) : (register uid code rc st).2.txns = st.txns := by
  unfold register
  cases h : lookupUser st.users uid <;> rfl

/-- Creation-time consistency survives a deposit request. -/
theorem txnConsistent_depositRequest (E uid txId rc : ℕ) (amount : ℚ)
    (st : St) (h : ∀ t ∈ st.txns, TxnConsistent E t) :
    ∀ t ∈ (depositRequest E uid txId rc amount st).2.txns,
      TxnConsistent E t := by
  unfold depositRequest
  cases hl : lookupUser st.users uid with
  | none => exact h
  | some u =>
    simp only
    split_ifs with h0 h1 h2
    · exact h
    · exact h
    · exact h
    · intro t ht
      rcases List.mem_append.mp ht with hm | hm
      · exact h t hm
      · simp only [List.mem_singleton] at hm
        rw [hm]
        refine ⟨fun hty => absurd rfl hty, fun _ => ⟨rfl, ?_, ?_⟩⟩
        · exact le_of_not_lt h1
        · exact le_of_not_lt h2

/-- Creation-time consistency survives the admin deposit decision. -/
theorem txnConsistent_adminDeposit (E : ℕ) (admin : String)
    (action : DepositAction) (txId newTxId : ℕ) (st : St)
    (h : ∀ t ∈ st.txns, TxnConsistent E t) :
    ∀ t ∈ (adminDepositDecision E admin action txId newTxId st).2.txns,
      TxnConsistent E t := by
  have hflip : ∀ status, ∀ t ∈ updateFirstTxn (isPendingDeposit txId)
      (finishTxn status admin) st.txns, TxnConsistent E t := by
    intro status t ht
    rcases mem_updateFirstTxn ht with hm | ⟨y, hy, hpy, hxy⟩
    · exact h t hm
    · rw [hxy]
      exact txnConsistent_finishTxn (h y hy)
  cases hfind : st.txns.find? (isPendingDeposit txId) with
  | none =>
    rw [adminDeposit_notFound_eq E admin action txId newTxId st hfind]
    exact h
  | some t =>
    cases action with
    | reject =>
      rw [adminDeposit_reject_eq E admin txId newTxId st hfind]
      exact hflip .cancelled
    | approve =>
      cases hu : lookupUser st.users t.userId with
      | none =>
        rw [adminDeposit_approve_noUser_eq E admin txId newTxId st hfind hu]
        exact h
      | some u =>
        cases hrb : u.referredBy with
        | none =>
          rw [adminDeposit_approve_noReferrer_eq E admin txId newTxId st
            hfind hu hrb]
          exact hflip .completed
        | some code =>
          cases hfr : findByReferralCode
              (updateUser t.userId (creditDeposit t.equities) st.users)
              code with
          | none =>
            rw [adminDeposit_approve_unresolved_eq E admin txId newTxId st
              hfind hu hrb hfr]
            exact hflip .completed
          | some e =>
            cases e with
            | mk rid r =>
              rw [adminDeposit_approve_referrer_eq E admin txId newTxId st
                hfind hu hrb hfr]
              intro t' ht'
              rcases List.mem_append.mp ht' with hm | hm
              · exact hflip .completed t' hm
              · simp only [List.mem_singleton] at hm
                rw [hm]
                exact txnConsistent_referralTxn E newTxId rid txId _

/-- Creation-time consistency survives order placement. -/
theorem txnConsistent_placeOrder (E uid orderId txId : ℕ)
    (serviceId targetUrl : String) (quantity : ℕ) (supplier : SupplierCall)
    (st : St) (h : ∀ t ∈ st.txns, TxnConsistent E t) :
    ∀ t ∈ (placeOrder E uid orderId txId serviceId targetUrl quantity
      supplier st).2.txns, TxnConsistent E t := by
  cases hu : lookupUser st.users uid with
  | none =>
    rw [placeOrder_authFail_eq E uid orderId txId serviceId targetUrl
      quantity supplier st hu]
    exact h
  | some u =>
    by_cases hreq : serviceId = "" ∨ targetUrl = "" ∨ quantity = 0
    · rw [placeOrder_required_eq E uid orderId txId serviceId targetUrl
        quantity supplier st hu hreq]
      exact h
    · push_neg at hreq
      obtain ⟨hs, hturl, hq0⟩ := hreq
      cases hsvc : st.services.find? (fun s => s.serviceId == serviceId) with
      | none =>
        rw [placeOrder_noService_eq E uid orderId txId serviceId targetUrl
          quantity supplier st hu hs hturl hq0 hsvc]
        exact h
      | some svc =>
        by_cases hq : quantity < svc.min ∨ svc.max < quantity
        · rw [placeOrder_badQuantity_eq E uid orderId txId serviceId
            targetUrl quantity supplier st hu hs hturl hq0 hsvc hq]
          exact h
        · push_neg at hq
          obtain ⟨hmin, hmax⟩ := hq
          by_cases hbal : u.balance < orderCost svc.ourRate quantity
          · rw [placeOrder_insufficient_eq E uid orderId txId serviceId
              targetUrl quantity supplier st hu hs hturl hq0 hsvc hmin hmax
              hbal]
            exact h
          · cases supplier with
            | fail err =>
              rw [placeOrder_supplierFail_eq E uid orderId txId serviceId
                targetUrl quantity err st hu hs hturl hq0 hsvc hmin hmax
                hbal]
              exact h
            | ok apiId =>
              rw [placeOrder_success_eq E uid orderId txId serviceId
                targetUrl quantity apiId st hu hs hturl hq0 hsvc hmin hmax
                hbal]
              intro t' ht'
              rcases List.mem_append.mp ht' with hm | hm
              · exact h t' hm
              · simp only [List.mem_singleton] at hm
                rw [hm]
                exact txnConsistent_orderTxn E txId uid _ orderId

/-- Creation-time consistency survives order cancellation. -/
theorem txnConsistent_cancelOrder (E uid orderId txId : ℕ)
    (supplierCancelOk : Bool) (st : St)
    (h : ∀ t ∈ st.txns, TxnConsistent E t) :
    ∀ t ∈ (cancelOrder E uid orderId txId supplierCancelOk st).2.txns,
      TxnConsistent E t := by
  cases hu : lookupUser st.users uid with
  | none =>
    rw [cancelOrder_authFail_eq E uid orderId txId supplierCancelOk st hu]
    exact h
  | some u =>
    cases hfind : st.orders.find? (isCancellable orderId uid) with
    | none =>
      rw [cancelOrder_notFound_eq E uid orderId txId supplierCancelOk st hu
        hfind]
      exact h
    | some o =>
      cases hsvc : st.services.find?
          (fun s => s.serviceId == o.serviceId) with
      | none =>
        rw [cancelOrder_noService_eq E uid orderId txId supplierCancelOk st
          hu hfind hsvc]
        exact h
      | some svc =>
        cases hflag : svc.cancel with
        | false =>
          rw [cancelOrder_noCancelFlag_eq E uid orderId txId
            supplierCancelOk st hu hfind hsvc hflag]
          exact h
        | true =>
          by_cases hok : o.apiOrderId = none ∨ supplierCancelOk = true
          · rw [cancelOrder_success_eq E uid orderId txId supplierCancelOk
              st hu hfind hsvc hflag hok]
            intro t' ht'
            rcases List.mem_append.mp ht' with hm | hm
            · exact h t' hm
            · simp only [List.mem_singleton] at hm
              rw [hm]
              exact txnConsistent_refundTxn E txId uid o.cost orderId
          · push_neg at hok
            obtain ⟨hapi, hsc⟩ := hok
            rcases Option.ne_none_iff_exists.mp hapi with ⟨apiId, hapiId⟩
            have hsc' : supplierCancelOk = false := by
              cases supplierCancelOk
              · rfl
              · exact absurd rfl hsc
            rw [hsc']
            rw [cancelOrder_supplierFail_eq E uid orderId txId st hu hfind
              hsvc hflag hapiId.symm]
            exact h

/-- Creation-time consistency is preserved by every operation. -/
theorem txnConsistent_step (E : ℕ) (st : St) (op : Op)
    (h : ∀ t ∈ st.txns, TxnConsistent E t) :
    ∀ t ∈ (step E st op).txns, TxnConsistent E t := by
  cases op with
  | register uid code rc =>
    show ∀ t ∈ (register uid code rc st).2.txns, TxnConsistent E t
    rw [register_txns_eq]
    exact h
  | depositRequest uid txId rc amount =>
    exact txnConsistent_depositRequest E uid txId rc amount st h
  | adminDeposit admin action txId newTxId =>
    exact txnConsistent_adminDeposit E admin action txId newTxId st h
  | placeOrder uid oid txId sid url q sup =>
    exact txnConsistent_placeOrder E uid oid txId sid url q sup st h
  | cancelOrder uid oid txId ok1 =>
    exact txnConsistent_cancelOrder E uid oid txId ok1 st h

/-- C9 amended: every transaction created by a sequential execution is
consistent with the fixed rate at creation time in the sense the handlers
enforce: order, refund and referral transactions carry
amount = equities * EQUITY_VALUE, while deposit transactions carry the raw
requested amount in [500, 500000] and equities = floor(amount / EQUITY_VALUE),
so their amount equals equities * EQUITY_VALUE only when EQUITY_VALUE divides
the amount. -/
theorem txn_rate_consistency (E : ℕ) (services : List Service)
    (ops : List Op) :
    ∀ t ∈ (run E services ops).txns, TxnConsistent E t := by
  have key : ∀ (l : List Op) (st : St),
      (∀ t ∈ st.txns, TxnConsistent E t) →
      ∀ t ∈ (l.foldl (step E) st).txns, TxnConsistent E t := by
    intro l
    induction l with
    | nil => intro st h; exact h
    | cons op l ih =>
      intro st h
      exact ih _ (txnConsistent_step E st op h)
  apply key ops (initSt services)
  intro t ht
  simp [initSt] at ht

/-- C9 amended witness: the 15-equity order transaction of the sample
execution satisfies the creation-time consistency. -/
theorem txn_rate_consistency_witness :
    orderTxn 10 102 2 15 500 ∈ (run 10 [svcW] opsW).txns ∧
    TxnConsistent 10 (orderTxn 10 102 2 15 500) :=
  ⟨by decide, txn_rate_consistency 10 [svcW] opsW _ (by decide)⟩

end EAcquire
